import Mathlib

/-!
Verification of the ingestion/aggregation core of the BTC live-stream service
(`src/server/index.js`, plus the trade-bucketing helper of `src/client/src/App.jsx`).

Modelling conventions:
* JavaScript numbers are modelled as exact rationals (`ℚ`) together with the
  non-finite results of `Number(...)` coercion (`NaN`, `±Infinity`); a missing /
  `undefined` field is `none`.
* `Array.prototype.sort` is a stable sort; it is modelled by the stable
  `List.insertionSort` (any two stable sorts with the same comparator give the
  same output list).
* `arr.slice(-n)` is `sliceLast n`, `arr.slice(0, n)` is `List.take n`.
* Broadcasts (`io.emit`) are modelled by appending the emitted payload to an
  `emitted` log carried in the state.
-/

namespace BTCPrice

/-! ## JavaScript value model -/

/-- The result of `Number(value)` coercion of a JavaScript value. -/
inductive JSNum where
  | fin (q : ℚ)
  | nan
  | posInf
  | negInf
deriving DecidableEq

/-- A JavaScript field access: `none` models a missing/`undefined` field,
`some n` holds the `Number(...)` coercion of the stored value. -/
abbrev JSValue := Option JSNum

/-- `src/server/index.js` lines 122-125:
`const n = Number(value); return Number.isFinite(n) ? n : 0;`
(`Number(undefined)` is `NaN`, hence the `none` case also yields 0). -/
def toNumber : JSValue → ℚ
  | some (JSNum.fin q) => q
  | _ => 0

/-- `Number(value)` when that is finite, `none` otherwise (the spec's
"finite number" side condition, used to state claim C10). -/
def finitePart : JSValue → Option ℚ
  | some (JSNum.fin q) => some q
  | _ => none

/-- JavaScript truthiness of a (coerced-number) value: `0`, `NaN` and
`undefined` are falsy. -/
def truthy : JSValue → Bool
  | some (JSNum.fin q) => decide (q ≠ 0)
  | some JSNum.nan => false
  | some JSNum.posInf => true
  | some JSNum.negInf => true
  | none => false

/-- JavaScript `a || b` on (coerced-number) values. -/
def jsOr (a b : JSValue) : JSValue := if truthy a then a else b

/-- JavaScript `a || b` on strings (the empty string is falsy). -/
def jsOrString (a b : String) : String := if a = "" then b else a

/-- JavaScript `s.toUpperCase()` on the ASCII side strings the venues send,
written out over the character list so that it evaluates on closed inputs. -/
def toUpperString (s : String) : String := String.mk (s.data.map Char.toUpper)

/-! ## Configuration constants (`src/server/index.js` lines 15-26) -/

def MAX_CANDLES : Nat := 200
def TOP_BUYERS_LIMIT : Nat := 12
def MIN_TOP_BUYER_BTC : ℚ := 1/10
def MAX_LIQUIDATIONS : Nat := 30
def MIN_LIQUIDATION_NOTIONAL_USD : ℚ := 100000
def RECONNECT_BASE_DELAY_MS : Nat := 1000
def RECONNECT_MAX_DELAY_MS : Nat := 15000

/-- JavaScript `arr.slice(-n)`: the last `n` elements (the whole array when it
is shorter than `n`). -/
def sliceLast {α : Type} (n : Nat) (l : List α) : List α := l.drop (l.length - n)

/-! ## Candle series store (`src/server/index.js` lines 80-150) -/

structure Candle where
  startTime : ℚ
  open_ : ℚ
  high : ℚ
  low : ℚ
  close : ℚ
  volume : ℚ
  isClosed : Bool
deriving DecidableEq

/-- The module-scope state `candles` / `latestClose` (`latestClose = null`
is `none`). -/
structure CandleStore where
  candles : List Candle
  latestClose : Option ℚ
deriving DecidableEq

/-- The comparator `(a, b) => a.startTime - b.startTime` as an ordering. -/
abbrev candleLE (a b : Candle) : Prop := a.startTime ≤ b.startTime

/-- Strict version of `candleLE`; `Pairwise candleLT` states "sorted ascending
with no duplicate `startTime`". -/
abbrev candleLT (a b : Candle) : Prop := a.startTime < b.startTime

instance : DecidableRel candleLE := fun a b =>
  inferInstanceAs (Decidable (a.startTime ≤ b.startTime))

instance : IsTotal Candle candleLE := ⟨fun a b => le_total a.startTime b.startTime⟩

instance : IsTrans Candle candleLE := ⟨fun _ _ _ h h2 => le_trans h h2⟩

/-- `nextCandles.slice().sort((a, b) => a.startTime - b.startTime)`. -/
def sortByStartTime (l : List Candle) : List Candle := l.insertionSort candleLE

/-- `setCandles` (`src/server/index.js` lines 127-136): replace the series with
the sorted input trimmed to capacity; refresh `latestClose` from the new last
candle when the result is non-empty. -/
def setCandles (st : CandleStore) (nextCandles : List Candle) : CandleStore :=
  let cs := sliceLast MAX_CANDLES (sortByStartTime nextCandles)
  { candles := cs
    latestClose :=
      match cs.getLast? with
      | some last => some last.close
      | none => st.latestClose }

/-- `upsertCandle` (`src/server/index.js` lines 138-150): replace the candle
with equal `startTime` when one exists (`findIndex` / assignment), otherwise
push, re-sort and trim to capacity; then `latestClose = candle.close`. -/
def upsertCandle (st : CandleStore) (candle : Candle) : CandleStore :=
  match st.candles.findIdx? (fun item => item.startTime == candle.startTime) with
  | some idx =>
      { candles := st.candles.set idx candle, latestClose := some candle.close }
  | none =>
      { candles := sliceLast MAX_CANDLES (sortByStartTime (st.candles ++ [candle]))
        latestClose := some candle.close }

/-- A candle-store mutation: a streaming upsert or a REST resync
(`setCandles` is the body of `resyncFromAuthoritative`). -/
inductive CandleOp where
  | upsert (c : Candle)
  | resync (cs : List Candle)

def applyOp (st : CandleStore) : CandleOp → CandleStore
  | CandleOp.upsert c => upsertCandle st c
  | CandleOp.resync cs => setCandles st cs

def runOps (st : CandleStore) (ops : List CandleOp) : CandleStore :=
  ops.foldl applyOp st

/-- Startup state: `candles = []`, `latestClose = null`. -/
def initialStore : CandleStore := { candles := [], latestClose := none }

/-- The series invariant of the spec: sorted strictly ascending by `startTime`
(hence duplicate-free) and at most `MAX_CANDLES` long. -/
def SeriesOK (l : List Candle) : Prop :=
  l.Pairwise candleLT ∧ l.length ≤ MAX_CANDLES

/-- Side condition on an operation's input: a resync input must not repeat a
`startTime` (the REST payload is one bucket per row). -/
def opInputOK : CandleOp → Prop
  | CandleOp.upsert _ => True
  | CandleOp.resync cs => (cs.map Candle.startTime).Nodup

instance : DecidablePred opInputOK := fun op =>
  match op with
  | CandleOp.upsert _ => isTrue trivial
  | CandleOp.resync cs => inferInstanceAs (Decidable ((cs.map Candle.startTime).Nodup))

/-! ## Second-price emission and heartbeat (`src/server/index.js` lines 152-176) -/

structure PriceState where
  latestSecondPrice : Option ℚ
  latestSecondTs : Option ℚ
  lastSecondBucket : Option ℤ
  emitted : List (ℚ × ℚ)
deriving DecidableEq

/-- `Math.floor(ts / 1_000)`. -/
def secondBucketOf (ts : ℚ) : ℤ := ⌊ts / 1000⌋

/-- `emitSecondPrice` (lines 152-163): always record the latest price/ts; emit
a `price` event only when the one-second bucket differs from the last
emission's bucket. -/
def emitSecondPrice (st : PriceState) (close : ℚ) (ts : ℚ) : PriceState :=
  let st1 := { st with latestSecondPrice := some close, latestSecondTs := some ts }
  let secondBucket := secondBucketOf ts
  if st1.lastSecondBucket = some secondBucket then st1
  else { st1 with
          lastSecondBucket := some secondBucket
          emitted := st1.emitted ++ [(close, ts)] }

/-- One tick of the 1-second heartbeat interval (lines 170-175): re-emit the
latest known price at the current clock time, unless no price is known yet. -/
def secondHeartbeatTick (st : PriceState) (now : ℚ) : PriceState :=
  match st.latestSecondPrice with
  | none => st
  | some p => emitSecondPrice st p now

/-- Run a sequence of `emitSecondPrice` calls (pairs `(close, ts)`). -/
def emitRun (st : PriceState) (calls : List (ℚ × ℚ)) : PriceState :=
  calls.foldl (fun s cl => emitSecondPrice s cl.1 cl.2) st

def initialPriceState : PriceState :=
  { latestSecondPrice := none, latestSecondTs := none
    lastSecondBucket := none, emitted := [] }

/-- The one-second buckets of the emitted `price` events. -/
def emittedBuckets (st : PriceState) : List ℤ :=
  st.emitted.map (fun e => secondBucketOf e.2)

/-! ## Liquidation feed (`src/server/index.js` lines 659-665) -/

structure Liquidation where
  exchange : String
  exchangeId : String
  logoUrl : String
  symbol : String
  side : String
  price : ℚ
  qty : ℚ
  notional : ℚ
  ts : ℚ
deriving DecidableEq

structure LiquidationFeed where
  liquidations : List Liquidation
  emitted : List Liquidation
deriving DecidableEq

/-- `pushLiquidation`: drop the event when `(item?.notional || 0)` is below the
floor (on an exact rational the `|| 0` is the identity: `0 || 0` is `0`);
otherwise prepend, trim to capacity and broadcast. -/
def pushLiquidation (st : LiquidationFeed) (item : Liquidation) : LiquidationFeed :=
  if item.notional < MIN_LIQUIDATION_NOTIONAL_USD then st
  else { liquidations := (item :: st.liquidations).take MAX_LIQUIDATIONS
         emitted := st.emitted ++ [item] }

/-- `pickFirstNumber(...values)` (`src/server/index.js` lines 726-734): the
first candidate whose numeric coercion is strictly positive, else 0. -/
def pickFirstNumber : List JSValue → ℚ
  | [] => 0
  | value :: rest =>
      let n := toNumber value
      if 0 < n then n else pickFirstNumber rest

/-- Modelled from the spec: "take the first present of several candidate
fields" — returns the numeric value of the first present (non-`undefined`)
candidate field and the rejection sentinel 0 when no candidate is present.
Stated only to compare with the source's `pickFirstNumber` (claim C9). -/
def pickFirstPresentSpec : List JSValue → ℚ
  | [] => 0
  | none :: rest => pickFirstPresentSpec rest
  | some v :: _ => toNumber (some v)

/-! ## Liquidation stream handlers
(`src/server/index.js` lines 685-714, 760-792, 828-869).
The per-message field extraction of each venue handler, producing the event
passed to `pushLiquidation` (or `none` when the message is rejected). String
fields use `""` for a missing field. -/

structure BinanceForceOrder where
  q : JSValue
  ap : JSValue
  p : JSValue
  S : String
  s : String
  T : JSValue
deriving DecidableEq

/-- Binance `forceOrder` handler body (lines 693-710). -/
def binanceForceEvent (order : BinanceForceOrder) (now : ℚ) : Option Liquidation :=
  let qty := toNumber order.q
  let price := toNumber (jsOr order.ap order.p)
  let side := if order.S = "SELL" then "sell" else "buy"
  if qty ≤ 0 ∨ price ≤ 0 then none
  else some
    { exchange := "Binance", exchangeId := "binance"
      logoUrl := "/exchange-logos/binance.svg"
      symbol := order.s, side := side, price := price, qty := qty
      notional := price * qty
      ts := if toNumber order.T = 0 then now else toNumber order.T }

structure BybitLiqRow where
  p : JSValue
  price : JSValue
  v : JSValue
  size : JSValue
  qty : JSValue
  q : JSValue
  T : JSValue
  ts : JSValue
  S : String
  side : String
  s : String
deriving DecidableEq

/-- Bybit liquidation handler body for one row (lines 768-788). -/
def bybitLiqEvent (entry : BybitLiqRow) (payloadTs : JSValue) (now : ℚ) :
    Option Liquidation :=
  let price := pickFirstNumber [entry.p, entry.price]
  let qty := pickFirstNumber [entry.v, entry.size, entry.qty, entry.q]
  let ts0 := pickFirstNumber [entry.T, entry.ts, payloadTs]
  let ts := if ts0 = 0 then now else ts0
  if price ≤ 0 ∨ qty ≤ 0 then none
  else
    let sideText := toUpperString (jsOrString entry.S entry.side)
    some
      { exchange := "Bybit", exchangeId := "bybit"
        logoUrl := "/exchange-logos/bybit.svg"
        symbol := jsOrString entry.s "BTCUSDT"
        side := if sideText = "SELL" then "sell" else "buy"
        price := price, qty := qty, notional := price * qty, ts := ts }

structure OkxLiqRow where
  bkPx : JSValue
  px : JSValue
  fillPx : JSValue
  price : JSValue
  sz : JSValue
  qty : JSValue
  size : JSValue
  bkSz : JSValue
  notionalUsd : JSValue
  usdSz : JSValue
  ts : JSValue
  side : String
  S : String
  instId : String
deriving DecidableEq

/-- OKX liquidation handler body for one flattened row (lines 848-868). Note
the notional is taken from the venue-reported `notionalUsd` / `usdSz` fields
when one of them is usable; `price * qty` is only the fallback. -/
def okxLiqEvent (entry : OkxLiqRow) (payloadTs : JSValue) (now : ℚ) :
    Option Liquidation :=
  let price := pickFirstNumber [entry.bkPx, entry.px, entry.fillPx, entry.price]
  let qty := pickFirstNumber [entry.sz, entry.qty, entry.size, entry.bkSz]
  let notional := pickFirstNumber [entry.notionalUsd, entry.usdSz,
    some (JSNum.fin (price * qty))]
  let ts0 := pickFirstNumber [entry.ts, payloadTs]
  let ts := if ts0 = 0 then now else ts0
  if price ≤ 0 ∨ qty ≤ 0 ∨ notional ≤ 0 then none
  else
    let sideText := toUpperString (jsOrString entry.side entry.S)
    some
      { exchange := "OKX", exchangeId := "okx"
        logoUrl := "/exchange-logos/okx.svg"
        symbol := jsOrString entry.instId "BTC-USDT-SWAP"
        side := if sideText = "SELL" then "sell" else "buy"
        price := price, qty := qty, notional := notional, ts := ts }

/-! ## Reconnect backoff (`src/server/index.js` lines 609-633, 913-916) -/

/-- The per-connection supervisor state: `reconnectAttempt`, whether a
`reconnectTimer` is pending, and the global `isShuttingDown` flag. -/
structure ReconnectState where
  reconnectAttempt : Nat
  timerPending : Bool
  isShuttingDown : Bool
deriving DecidableEq

/-- `Math.min(RECONNECT_BASE_DELAY_MS * 2 ** Math.max(0, attempt - 1),
RECONNECT_MAX_DELAY_MS)`; natural subtraction is the `Math.max(0, ·)`
truncation. -/
def reconnectDelay (attempt : Nat) : Nat :=
  min (RECONNECT_BASE_DELAY_MS * 2 ^ (attempt - 1)) RECONNECT_MAX_DELAY_MS

/-- `scheduleReconnect` (lines 609-626): a no-op while shutting down or while a
timer is already pending; otherwise increment the attempt counter and schedule
a reconnect after the backoff delay (returned as `some delay`). -/
def scheduleReconnect (st : ReconnectState) : ReconnectState × Option Nat :=
  if st.isShuttingDown || st.timerPending then (st, none)
  else
    let attempt := st.reconnectAttempt + 1
    ({ st with reconnectAttempt := attempt, timerPending := true },
      some (reconnectDelay attempt))

/-- The timer callback clearing `reconnectTimer` (line 623) before the next
connection attempt. -/
def reconnectTimerFire (st : ReconnectState) : ReconnectState :=
  { st with timerPending := false }

/-- The `open` handler (lines 913-916): `reconnectAttempt = 0`. -/
def binanceSocketOpen (st : ReconnectState) : ReconnectState :=
  { st with reconnectAttempt := 0 }

/-- `n` consecutive failure cycles: each close event schedules a reconnect,
whose timer later fires and whose connection attempt fails again. Returns the
final state and the list of scheduled delays. -/
def runFailureCycles : Nat → ReconnectState → ReconnectState × List Nat
  | 0, st => (st, [])
  | n + 1, st =>
      let s1 := scheduleReconnect st
      let st2 := reconnectTimerFire s1.1
      let s3 := runFailureCycles n st2
      (s3.1, s1.2.toList ++ s3.2)

def initialReconnectState : ReconnectState :=
  { reconnectAttempt := 0, timerPending := false, isShuttingDown := false }

/-! ## Cross-venue top-buyers aggregator (`src/server/index.js` lines 243-349) -/

structure Exchange where
  id : String
  name : String
  logoUrl : String
deriving DecidableEq

def binanceExchange : Exchange :=
  { id := "binance", name := "Binance", logoUrl := "/exchange-logos/binance.svg" }

def bybitExchange : Exchange :=
  { id := "bybit", name := "Bybit", logoUrl := "/exchange-logos/bybit.svg" }

def okxExchange : Exchange :=
  { id := "okx", name := "OKX", logoUrl := "/exchange-logos/okx.svg" }

def kucoinExchange : Exchange :=
  { id := "kucoin", name := "KuCoin", logoUrl := "/exchange-logos/kucoin.svg" }

def EXCHANGES : List Exchange :=
  [binanceExchange, bybitExchange, okxExchange, kucoinExchange]

structure TopBuyerRow where
  exchange : String
  exchangeId : String
  logoUrl : String
  price : ℚ
  size : ℚ
  notional : ℚ
deriving DecidableEq

/-- The comparator `(a, b) => b.notional - a.notional` (descending by
notional) as an ordering. -/
abbrev rowGE (a b : TopBuyerRow) : Prop := b.notional ≤ a.notional

instance : DecidableRel rowGE := fun a b =>
  inferInstanceAs (Decidable (b.notional ≤ a.notional))

instance : IsTotal TopBuyerRow rowGE := ⟨fun a b => le_total b.notional a.notional⟩

instance : IsTrans TopBuyerRow rowGE := ⟨fun _ _ _ h h2 => le_trans h2 h⟩

def sortByNotionalDesc (l : List TopBuyerRow) : List TopBuyerRow :=
  l.insertionSort rowGE

/-- `mapRawBidsToRows` (lines 243-261): a raw bid is the pair
`(item[0], item[1])` of price and size; map, filter by `price > 0` and the
size floor, sort descending by notional, cap per venue. -/
def mapRawBidsToRows (rawBids : List (JSValue × JSValue)) (exchange : Exchange) :
    List TopBuyerRow :=
  let rows :=
    ((rawBids.map (fun item =>
        let price := toNumber item.1
        let size := toNumber item.2
        ({ exchange := exchange.name, exchangeId := exchange.id
           logoUrl := exchange.logoUrl
           price := price, size := size, notional := price * size } : TopBuyerRow))).filter
      (fun item => decide (0 < item.price) && decide (MIN_TOP_BUYER_BTC ≤ item.size)))
  (sortByNotionalDesc rows).take TOP_BUYERS_LIMIT

/-- One outcome of `Promise.allSettled` for a venue snapshot fetch: the raw
bid rows on fulfillment (each venue fetcher then applies
`mapRawBidsToRows`), or the rejection reason's message. -/
inductive FetchResult where
  | fulfilled (rawBids : List (JSValue × JSValue))
  | rejected (reason : String)
deriving DecidableEq

structure ExchangeStatus where
  exchange : String
  status : String
  error : Option String
deriving DecidableEq

structure TopBuyersPublication where
  rows : List TopBuyerRow
  exchanges : List ExchangeStatus
deriving DecidableEq

/-- The body of `settled.forEach(...)` (lines 324-336): accumulate merged rows
for fulfilled venues and a status entry per venue
(`result.reason?.message || "unknown"` on rejection). -/
def settleStep (acc : List TopBuyerRow × List ExchangeStatus)
    (item : Exchange × FetchResult) : List TopBuyerRow × List ExchangeStatus :=
  match item.2 with
  | FetchResult.fulfilled rawBids =>
      (acc.1 ++ mapRawBidsToRows rawBids item.1,
        acc.2 ++ [{ exchange := item.1.name, status := "ok", error := none }])
  | FetchResult.rejected reason =>
      (acc.1,
        acc.2 ++ [{ exchange := item.1.name, status := "error"
                    error := some (jsOrString reason "unknown") }])

/-- `refreshTopBuyersGlobal` (lines 309-349) composed with the per-venue
fetchers: merge the fulfilled venues' mapped rows, re-sort descending by
notional, truncate to the global top-N, and record the per-venue status. -/
def refreshTopBuyersGlobal (settled : List (Exchange × FetchResult)) :
    TopBuyersPublication :=
  let ms := settled.foldl settleStep ([], [])
  { rows := (sortByNotionalDesc ms.1).take TOP_BUYERS_LIMIT, exchanges := ms.2 }

/-- The concatenation, in venue order, of the fulfilled venues' surviving
(mapped, filtered, per-venue sorted and capped) rows. -/
def survivingRows (settled : List (Exchange × FetchResult)) : List TopBuyerRow :=
  (settled.map (fun it =>
    match it.2 with
    | FetchResult.fulfilled rawBids => mapRawBidsToRows rawBids it.1
    | FetchResult.rejected _ => [])).flatten

/-- The per-venue status list: `ok` for each fulfilled venue, `error` with the
reason's message for each rejected one. -/
def statusRows (settled : List (Exchange × FetchResult)) : List ExchangeStatus :=
  settled.map (fun it =>
    match it.2 with
    | FetchResult.fulfilled _ => { exchange := it.1.name, status := "ok", error := none }
    | FetchResult.rejected reason =>
        { exchange := it.1.name, status := "error"
          error := some (jsOrString reason "unknown") })

/-! ## Normalizers (`src/server/index.js` lines 178-188, 231-241) -/

/-- A raw REST kline row `entry[0] .. entry[5]`. -/
structure RawRestKline where
  f0 : JSValue
  f1 : JSValue
  f2 : JSValue
  f3 : JSValue
  f4 : JSValue
  f5 : JSValue
deriving DecidableEq

def normalizeRestKline (entry : RawRestKline) : Candle :=
  { startTime := toNumber entry.f0
    open_ := toNumber entry.f1
    high := toNumber entry.f2
    low := toNumber entry.f3
    close := toNumber entry.f4
    volume := toNumber entry.f5
    isClosed := true }

/-- A raw websocket kline payload `data.k` (`x` already Boolean-coerced). -/
structure RawWsKline where
  t : JSValue
  o : JSValue
  h : JSValue
  l : JSValue
  c : JSValue
  v : JSValue
  x : Bool
deriving DecidableEq

def normalizeWsKline (kline : RawWsKline) : Candle :=
  { startTime := toNumber kline.t
    open_ := toNumber kline.o
    high := toNumber kline.h
    low := toNumber kline.l
    close := toNumber kline.c
    volume := toNumber kline.v
    isClosed := kline.x }

/-! ## Market rows (`src/server/index.js` lines 367-439) -/

/-- JavaScript division of two finite numbers: division by zero produces `NaN`
(for `0 / 0`) or a signed infinity — the non-finite outcomes the guards of
`refreshMarkets` have to rule out. -/
def jsDiv (a b : ℚ) : JSNum :=
  if b = 0 then
    if a = 0 then JSNum.nan else if 0 < a then JSNum.posInf else JSNum.negInf
  else JSNum.fin (a / b)

/-- JavaScript multiplication of a (possibly non-finite) number by a finite
one, propagating `NaN` and the infinities. -/
def jsMul (a : JSNum) (b : ℚ) : JSNum :=
  match a with
  | JSNum.fin q => JSNum.fin (q * b)
  | JSNum.nan => JSNum.nan
  | JSNum.posInf =>
      if b = 0 then JSNum.nan else if 0 < b then JSNum.posInf else JSNum.negInf
  | JSNum.negInf =>
      if b = 0 then JSNum.nan else if 0 < b then JSNum.negInf else JSNum.posInf

/-- JavaScript `s.endsWith(t)`, written over the character lists so that it
evaluates on closed inputs. -/
def endsWithString (s t : String) : Bool := t.data.isSuffixOf s.data

def replaceFirstAux (pat repl : List Char) : List Char → List Char
  | [] => []
  | c :: rest =>
      if pat.isPrefixOf (c :: rest) then repl ++ (c :: rest).drop pat.length
      else c :: replaceFirstAux pat repl rest

/-- JavaScript `s.replace(pat, repl)` with a string pattern: replace the
first occurrence only (the whole string is returned unchanged when the
pattern does not occur). -/
def stringReplaceFirst (s pat repl : String) : String :=
  String.mk (replaceFirstAux pat.data repl.data s.data)

/-- The published market row `{symbol, price, changePercent, changeValue,
marketType}`. `price` and `changeValue` are constructed from `toNumber`
images and exact subtraction, hence always finite; `changePercent` is stored
as the raw JavaScript arithmetic result, since for stock rows it is a
division whose finiteness depends on the `open > 0` guard. -/
structure MarketRow where
  symbol : String
  price : ℚ
  changePercent : JSNum
  changeValue : ℚ
  marketType : String
deriving DecidableEq

/-- A crypto row before `quoteVolume` is dropped by the final `.map`. -/
structure CryptoRowFull where
  symbol : String
  price : ℚ
  changePercent : JSNum
  changeValue : ℚ
  quoteVolume : ℚ
  marketType : String
deriving DecidableEq

/-- One entry of the Binance 24h ticker payload (`symbol` is
`String(item.symbol || "")`, so `""` models a missing field). -/
structure RawTickerItem where
  symbol : String
  lastPrice : JSValue
  priceChangePercent : JSValue
  priceChange : JSValue
  quoteVolume : JSValue
deriving DecidableEq

def stableBases : List String :=
  ["USDT", "USDC", "FDUSD", "BUSD", "TUSD", "DAI", "USDP"]

/-- The comparator `(a, b) => b.quoteVolume - a.quoteVolume`. -/
abbrev cryptoGE (a b : CryptoRowFull) : Prop := b.quoteVolume ≤ a.quoteVolume

instance : DecidableRel cryptoGE := fun a b =>
  inferInstanceAs (Decidable (b.quoteVolume ≤ a.quoteVolume))

instance : IsTotal CryptoRowFull cryptoGE := ⟨fun a b => le_total b.quoteVolume a.quoteVolume⟩

instance : IsTrans CryptoRowFull cryptoGE := ⟨fun _ _ _ h h2 => le_trans h2 h⟩

def sortByQuoteVolumeDesc (l : List CryptoRowFull) : List CryptoRowFull :=
  l.insertionSort cryptoGE

/-- The crypto half of `refreshMarkets` (lines 375-394): filter to `...USDT`
symbols, normalize, drop stablecoin bases and non-positive prices, sort
descending by quote volume, keep the top 10, drop `quoteVolume`. -/
def cryptoRowsOf (cryptoPayload : List RawTickerItem) : List MarketRow :=
  let rows :=
    ((cryptoPayload.filter (fun item => endsWithString item.symbol "USDT")).map
      (fun item =>
        ({ symbol := stringReplaceFirst item.symbol "USDT" ""
           price := toNumber item.lastPrice
           changePercent := JSNum.fin (toNumber item.priceChangePercent)
           changeValue := toNumber item.priceChange
           quoteVolume := toNumber item.quoteVolume
           marketType := "crypto" } : CryptoRowFull))).filter
      (fun item => decide (¬ item.symbol = "") &&
        decide (¬ item.symbol ∈ stableBases) && decide (0 < item.price))
  ((sortByQuoteVolumeDesc rows).take 10).map
    (fun r =>
      { symbol := r.symbol, price := r.price, changePercent := r.changePercent
        changeValue := r.changeValue, marketType := r.marketType })

/-- One Stooq CSV line after `line.split(",")`: each column carries its text
and its `Number(...)` coercion. -/
structure StockCsvLine where
  cols : List (String × JSValue)
deriving DecidableEq

/-- The stock-row construction of `refreshMarkets` for one CSV line
(lines 409-430): skip short lines, take `symbolRaw` from column 0, `open`
from column 3 and `close` from column 6, drop the line unless the symbol is
non-empty and `open > 0` and `close > 0`, then build the row with
`changeValue = close - open` and `changePercent = (changeValue / open) * 100`
(the division that the `open > 0` guard keeps finite). -/
def stockRowOfLine (line : StockCsvLine) : Option MarketRow :=
  if line.cols.length < 8 then none
  else
    let symbolRaw := toUpperString (jsOrString (line.cols.getD 0 ("", none)).1 "")
    let op := toNumber (line.cols.getD 3 ("", none)).2
    let cl := toNumber (line.cols.getD 6 ("", none)).2
    if symbolRaw = "" ∨ op ≤ 0 ∨ cl ≤ 0 then none
    else
      some
        { symbol := stringReplaceFirst symbolRaw ".US" ""
          price := cl
          changePercent := jsMul (jsDiv (cl - op) op) 100
          changeValue := cl - op
          marketType := "stock" }

/-- The published `markets` list (line 433): crypto rows followed by the
stock rows of all fetched CSV lines, filtered once more by non-empty symbol
and positive price. -/
def refreshMarketsRows (cryptoPayload : List RawTickerItem)
    (stockLines : List StockCsvLine) : List MarketRow :=
  (cryptoRowsOf cryptoPayload ++ stockLines.filterMap stockRowOfLine).filter
    (fun item => decide (¬ item.symbol = "") && decide (0 < item.price))

/-! ## Client-side trade bucketing
(`src/client/src/App.jsx` lines 256-280) — the `applyTrade` of the spec. -/

structure ClientCandle where
  x : ℚ
  o : ℚ
  h : ℚ
  l : ℚ
  c : ℚ
  v : Option ℚ
deriving DecidableEq

structure Trade where
  price : ℚ
  qty : ℚ
  ts : ℚ
  side : String
deriving DecidableEq

/-- `bucketStart(ts, intervalMs) = Math.floor(ts / intervalMs) * intervalMs`. -/
def bucketStart (ts intervalMs : ℚ) : ℚ := (⌊ts / intervalMs⌋ : ℚ) * intervalMs

/-- The candle a trade seeds when it opens a new bucket
(`o = h = l = c = price`, no volume field). -/
def seededCandle (trade : Trade) (x : ℚ) : ClientCandle :=
  { x := x, o := trade.price, h := trade.price, l := trade.price
    c := trade.price, v := none }

/-- The in-place extension of the last candle by a trade
(`h = max(h, price)`, `l = min(l, price)`, `c = price`). -/
def extendedCandle (last : ClientCandle) (trade : Trade) : ClientCandle :=
  { last with h := max last.h trade.price, l := min last.l trade.price
              c := trade.price }

/-- `upsertCandleFromTrade` (lines 260-280): compare the trade's bucket with
the LAST candle's bucket only; seed a new candle when the series is empty or
the last bucket differs, otherwise extend the last candle; then trim with
`slice(-maxItems)`. -/
def upsertCandleFromTrade (candles : List ClientCandle) (trade : Trade)
    (intervalMs : ℚ) (maxItems : Nat) : List ClientCandle :=
  let x := bucketStart trade.ts intervalMs
  let next :=
    match candles.getLast? with
    | none => candles ++ [seededCandle trade x]
    | some last =>
        if last.x = x then candles.dropLast ++ [extendedCandle last trade]
        else candles ++ [seededCandle trade x]
  sliceLast maxItems next

/-! ## Concrete test data used by counterexamples and witnesses -/

/-- A closed candle whose four prices all equal `v`. -/
def candleAt (t v : ℚ) : Candle :=
  { startTime := t, open_ := v, high := v, low := v, close := v
    volume := 0, isClosed := true }

def wBidsBinance : List (JSValue × JSValue) :=
  [(some (JSNum.fin 50000), some (JSNum.fin 2)),
   (some (JSNum.fin 49500), some (JSNum.fin 1)),
   (some (JSNum.fin 49000), some (JSNum.fin 1))]

def wBidsOkx : List (JSValue × JSValue) :=
  [(some (JSNum.fin 50100), some (JSNum.fin 1)),
   (some (JSNum.fin 50050), some (JSNum.fin 3))]

/-- The spec's aggregator scenario: venue A fulfilled with 3 surviving rows,
venue B rejected, venue C fulfilled with 2 surviving rows. -/
def wSettled : List (Exchange × FetchResult) :=
  [(binanceExchange, FetchResult.fulfilled wBidsBinance),
   (bybitExchange, FetchResult.rejected "HTTP 500"),
   (okxExchange, FetchResult.fulfilled wBidsOkx)]

def emptyFeed : LiquidationFeed := { liquidations := [], emitted := [] }

def liqSmall : Liquidation :=
  { exchange := "Binance", exchangeId := "binance"
    logoUrl := "/exchange-logos/binance.svg", symbol := "BTCUSDT", side := "buy"
    price := 50000, qty := 1, notional := 50000, ts := 0 }

def liqBig : Liquidation :=
  { exchange := "Binance", exchangeId := "binance"
    logoUrl := "/exchange-logos/binance.svg", symbol := "BTCUSDT", side := "sell"
    price := 50000, qty := 3, notional := 150000, ts := 0 }

/-- An OKX liquidation message row carrying a venue-reported `notionalUsd`
(200000 USD) that differs from `price * qty` (150000 USD). -/
def okxRowCE : OkxLiqRow :=
  { bkPx := some (JSNum.fin 50000), px := none, fillPx := none, price := none
    sz := some (JSNum.fin 3), qty := none, size := none, bkSz := none
    notionalUsd := some (JSNum.fin 200000), usdSz := none, ts := none
    side := "SELL", S := "", instId := "BTC-USDT-SWAP" }

/-- The event the OKX handler produces from `okxRowCE`. -/
def okxLiqCE : Liquidation :=
  { exchange := "OKX", exchangeId := "okx", logoUrl := "/exchange-logos/okx.svg"
    symbol := "BTC-USDT-SWAP", side := "sell", price := 50000, qty := 3
    notional := 200000, ts := 1234 }

def binOrderW : BinanceForceOrder :=
  { q := some (JSNum.fin 2), ap := some (JSNum.fin 60000), p := none
    S := "SELL", s := "BTCUSDT", T := some (JSNum.fin 99) }

def binLiqW : Liquidation :=
  { exchange := "Binance", exchangeId := "binance"
    logoUrl := "/exchange-logos/binance.svg", symbol := "BTCUSDT", side := "sell"
    price := 60000, qty := 2, notional := 120000, ts := 99 }

def bybitRowW : BybitLiqRow :=
  { p := some (JSNum.fin 60000), price := none, v := some (JSNum.fin 2)
    size := none, qty := none, q := none, T := none, ts := none
    S := "", side := "", s := "" }

def bybitLiqW : Liquidation :=
  { exchange := "Bybit", exchangeId := "bybit"
    logoUrl := "/exchange-logos/bybit.svg", symbol := "BTCUSDT", side := "buy"
    price := 60000, qty := 2, notional := 120000, ts := 5 }

def okxRowW : OkxLiqRow :=
  { bkPx := some (JSNum.fin 60000), px := none, fillPx := none, price := none
    sz := some (JSNum.fin 2), qty := none, size := none, bkSz := none
    notionalUsd := none, usdSz := none, ts := none
    side := "", S := "", instId := "" }

def okxLiqW : Liquidation :=
  { exchange := "OKX", exchangeId := "okx", logoUrl := "/exchange-logos/okx.svg"
    symbol := "BTC-USDT-SWAP", side := "buy", price := 60000, qty := 2
    notional := 120000, ts := 5 }

def wRawBids : List (JSValue × JSValue) := [(some (JSNum.fin 3), some (JSNum.fin 2))]

/-- The row `mapRawBidsToRows` builds from `wRawBids` for Binance. -/
def wRow : TopBuyerRow :=
  { exchange := "Binance", exchangeId := "binance"
    logoUrl := "/exchange-logos/binance.svg", price := 3, size := 2
    notional := 6 }

def wTicker : RawTickerItem :=
  { symbol := "BTCUSDT", lastPrice := some (JSNum.fin 50000)
    priceChangePercent := some (JSNum.fin 2)
    priceChange := some (JSNum.fin 1000), quoteVolume := some (JSNum.fin 900) }

/-- The market row `cryptoRowsOf` builds from `wTicker`. -/
def wCryptoRow : MarketRow :=
  { symbol := "BTC", price := 50000, changePercent := JSNum.fin 2
    changeValue := 1000, marketType := "crypto" }

/-- A Stooq CSV line for AAPL with `open = 100` (column 3) and `close = 110`
(column 6). -/
def wStockLine : StockCsvLine :=
  { cols := [("aapl.us", none), ("d", none), ("t", none),
    ("100", some (JSNum.fin 100)), ("h", none), ("l", none),
    ("110", some (JSNum.fin 110)), ("v", none)] }

/-- The market row `stockRowOfLine` builds from `wStockLine`:
`changeValue = 110 - 100` and `changePercent = (10 / 100) * 100 = 10`. -/
def wStockRow : MarketRow :=
  { symbol := "AAPL", price := 110, changePercent := JSNum.fin 10
    changeValue := 10, marketType := "stock" }

/-- The invariant maintained across `emitSecondPrice` calls: the emitted
buckets are strictly increasing and all bounded by `lastSecondBucket`. -/
def PriceInv (st : PriceState) : Prop :=
  (emittedBuckets st).Pairwise (· < ·) ∧
  ∀ x ∈ emittedBuckets st, ∃ b, st.lastSecondBucket = some b ∧ x ≤ b

/-! ## Generic list lemmas -/

theorem length_sliceLast_le {α : Type} (n : Nat) (l : List α) :
    (sliceLast n l).length ≤ n := by
  simp only [sliceLast, List.length_drop]
  omega

theorem sliceLast_pairwise {α : Type} {R : α → α → Prop} (n : Nat) {l : List α}
    (h : l.Pairwise R) : (sliceLast n l).Pairwise R :=
  List.Pairwise.sublist (List.drop_sublist _ _) h

theorem getLast?_drop {α : Type} {l : List α} {k : Nat} (h : k < l.length) :
    (l.drop k).getLast? = l.getLast? := by
  rw [List.getLast?_eq_getElem?, List.getLast?_eq_getElem?, List.length_drop,
    List.getElem?_drop]
  congr 1
  omega

theorem sliceLast_getLast? {α : Type} {n : Nat} (hn : 1 ≤ n) {l : List α}
    (hl : l ≠ []) : (sliceLast n l).getLast? = l.getLast? := by
  have hpos : 0 < l.length := List.length_pos.mpr hl
  exact getLast?_drop (by omega)

theorem pairwise_lt_of_pairwise_le_nodup {α : Type} {key : α → ℚ} {l : List α}
    (hle : l.Pairwise (fun a b => key a ≤ key b)) (hnd : (l.map key).Nodup) :
    l.Pairwise (fun a b => key a < key b) := by
  have hne : l.Pairwise (fun a b => key a ≠ key b) := List.pairwise_map.mp hnd
  exact (hle.and hne).imp fun h => lt_of_le_of_ne h.1 h.2

theorem getLast?_eq_of_sorted_max {α : Type} {key : α → ℚ} {l : List α} {a : α}
    (ha : a ∈ l) (hs : l.Pairwise (fun p q => key p ≤ key q))
    (hmax : ∀ y ∈ l, y = a ∨ key y < key a) : l.getLast? = some a := by
  induction l with
  | nil => exact absurd ha (List.not_mem_nil a)
  | cons x t ih =>
    cases t with
    | nil =>
      rcases List.mem_singleton.mp ha with rfl
      rfl
    | cons y u =>
      rw [List.getLast?_cons_cons]
      have hxle : ∀ z ∈ y :: u, key x ≤ key z := (List.pairwise_cons.mp hs).1
      apply ih
      · rcases List.mem_cons.mp ha with rfl | ha2
        · rcases hmax y (List.mem_cons_of_mem _ (List.mem_cons_self y u)) with rfl | hy
          · exact List.mem_cons_self y u
          · exact absurd (lt_of_lt_of_le hy (hxle y (List.mem_cons_self y u)))
              (lt_irrefl _)
        · exact ha2
      · exact (List.pairwise_cons.mp hs).2
      · intro z hz
        exact hmax z (List.mem_cons_of_mem x hz)

theorem eq_of_mem_key_eq_of_pairwise_lt {α : Type} {key : α → ℚ} {l : List α}
    (h : l.Pairwise (fun p q => key p < key q)) {y w : α}
    (hy : y ∈ l) (hw : w ∈ l) (hk : key y = key w) : y = w := by
  induction l with
  | nil => exact absurd hy (List.not_mem_nil y)
  | cons x t ih =>
    have hrel : ∀ z ∈ t, key x < key z := (List.pairwise_cons.mp h).1
    rcases List.mem_cons.mp hy with rfl | hy2 <;>
      rcases List.mem_cons.mp hw with rfl | hw2
    · rfl
    · exact absurd (hk ▸ hrel w hw2) (lt_irrefl _)
    · exact absurd (hk ▸ hrel y hy2) (lt_irrefl _)
    · exact ih (List.pairwise_cons.mp h).2 hy2 hw2

/-! ## Candle store lemmas -/

theorem sortByStartTime_sorted (l : List Candle) :
    (sortByStartTime l).Pairwise candleLE :=
  List.sorted_insertionSort candleLE l

theorem sortByStartTime_perm (l : List Candle) : List.Perm (sortByStartTime l) l :=
  List.perm_insertionSort candleLE l

theorem upsert_found_pairwise {l : List Candle} {c : Candle} {i : Nat}
    (hp : l.Pairwise candleLT)
    (hf : l.findIdx? (fun item => item.startTime == c.startTime) = some i) :
    (l.set i c).Pairwise candleLT := by
  obtain ⟨hi, hpi, -⟩ := List.findIdx?_eq_some_iff_getElem.mp hf
  have hkey : l[i].startTime = c.startTime := by simpa using hpi
  rw [List.pairwise_iff_getElem] at hp ⊢
  intro a b ha hb hab
  have ha2 : a < l.length := by simpa using ha
  have hb2 : b < l.length := by simpa using hb
  simp only [List.getElem_set]
  split_ifs with h1 h2 h3
  · omega
  · have hib : i < b := by omega
    have h := hp i b hi hb2 hib
    show c.startTime < _
    rw [← hkey]
    exact h
  · have hai : a < i := by omega
    have h := hp a i ha2 hi hai
    show _ < c.startTime
    rw [← hkey]
    exact h
  · exact hp a b ha2 hb2 hab

theorem upsert_found_getLast {l : List Candle} {c : Candle} {i : Nat}
    (hp : l.Pairwise candleLT)
    (hmax : ∀ x ∈ l, x.startTime ≤ c.startTime)
    (hf : l.findIdx? (fun item => item.startTime == c.startTime) = some i) :
    (l.set i c).getLast? = some c := by
  obtain ⟨hi, hpi, -⟩ := List.findIdx?_eq_some_iff_getElem.mp hf
  have hkey : l[i].startTime = c.startTime := by simpa using hpi
  have hilast : i = l.length - 1 := by
    by_contra hne
    have hi1 : i + 1 < l.length := by omega
    have hlt : l[i].startTime < l[i + 1].startTime :=
      (List.pairwise_iff_getElem.mp hp) i (i + 1) hi hi1 (Nat.lt_succ_self i)
    have hle : l[i + 1].startTime ≤ c.startTime := hmax _ (List.getElem_mem hi1)
    rw [hkey] at hlt
    exact absurd (lt_of_lt_of_le hlt hle) (lt_irrefl _)
  have hlen : l.length - 1 < (l.set i c).length := by
    rw [List.length_set]; omega
  rw [List.getLast?_eq_getElem?, List.length_set, List.getElem?_eq_getElem hlen,
    List.getElem_set, if_pos hilast]

theorem keys_nodup_of_pairwise_lt {l : List Candle} (hp : l.Pairwise candleLT) :
    (l.map Candle.startTime).Nodup :=
  List.pairwise_map.mpr (hp.imp fun h => ne_of_lt h)

theorem upsert_absent_sorted {l : List Candle} {c : Candle}
    (hp : l.Pairwise candleLT)
    (hf : l.findIdx? (fun item => item.startTime == c.startTime) = none) :
    (sortByStartTime (l ++ [c])).Pairwise candleLT := by
  have hnotin : ∀ x ∈ l, x.startTime ≠ c.startTime := by
    intro x hx
    have := List.findIdx?_eq_none_iff.mp hf x hx
    simpa using this
  have hnd : ((l ++ [c]).map Candle.startTime).Nodup := by
    rw [List.map_append, List.nodup_append]
    refine ⟨keys_nodup_of_pairwise_lt hp, List.nodup_singleton _, ?_⟩
    intro a ha hb
    rcases List.mem_map.mp ha with ⟨x, hx, rfl⟩
    rcases List.mem_singleton.mp hb with h
    exact hnotin x hx h
  have hndsorted : ((sortByStartTime (l ++ [c])).map Candle.startTime).Nodup :=
    (List.Perm.nodup_iff ((sortByStartTime_perm (l ++ [c])).map Candle.startTime)).mpr hnd
  exact pairwise_lt_of_pairwise_le_nodup (sortByStartTime_sorted (l ++ [c])) hndsorted

theorem upsertCandle_seriesOK {st : CandleStore} {c : Candle}
    (h : SeriesOK st.candles) : SeriesOK (upsertCandle st c).candles := by
  obtain ⟨hpw, hlen⟩ := h
  cases hf : st.candles.findIdx? (fun item => item.startTime == c.startTime) with
  | some i =>
    simp only [upsertCandle, hf]
    exact ⟨upsert_found_pairwise hpw hf, by rw [List.length_set]; exact hlen⟩
  | none =>
    simp only [upsertCandle, hf]
    exact ⟨sliceLast_pairwise _ (upsert_absent_sorted hpw hf),
      length_sliceLast_le _ _⟩

theorem setCandles_seriesOK {st : CandleStore} {next : List Candle}
    (hnd : (next.map Candle.startTime).Nodup) :
    SeriesOK (setCandles st next).candles := by
  have hndsorted : ((sortByStartTime next).map Candle.startTime).Nodup :=
    (List.Perm.nodup_iff ((sortByStartTime_perm next).map Candle.startTime)).mpr hnd
  have hpw : (sortByStartTime next).Pairwise candleLT :=
    pairwise_lt_of_pairwise_le_nodup (sortByStartTime_sorted next) hndsorted
  simp only [setCandles]
  exact ⟨sliceLast_pairwise _ hpw, length_sliceLast_le _ _⟩

/-! ## Claim C1 -/

/-- C1 (amended): for every sequence of `upsertCandle` calls interleaved with
resyncs (`setCandles`) whose input series carry pairwise-distinct
`startTime`s, starting from a state whose series satisfies the invariant, the
series stays sorted strictly ascending by `startTime` (hence duplicate-free)
with length at most the capacity 200; in particular a resync followed by any
upsert never reintroduces an out-of-order or duplicate bucket. -/
theorem candle_series_invariant (ops : List CandleOp) (st : CandleStore)
    (hok : SeriesOK st.candles) (hin : ∀ op ∈ ops, opInputOK op) :
    SeriesOK (runOps st ops).candles := by
  induction ops generalizing st with
  | nil => exact hok
  | cons op rest ih =>
    have h1 : SeriesOK (applyOp st op).candles := by
      cases op with
      | upsert c => simpa only [applyOp] using upsertCandle_seriesOK (c := c) hok
      | resync cs =>
        simpa only [applyOp] using
          (setCandles_seriesOK (hin _ (List.mem_cons_self _ _)) :
            SeriesOK (setCandles st cs).candles)
    simp only [runOps, List.foldl_cons]
    exact ih (applyOp st op) h1 (fun o ho => hin o (List.mem_cons_of_mem _ ho))

/-- C1 counterexample: the claim as stated fails, because `setCandles` (the
body of `resyncFromAuthoritative`) sorts and trims its input but does not
deduplicate it — a resync whose input repeats `startTime` 1000 leaves two
candles with `startTime` 1000 in the series. -/
theorem resync_duplicate_counterexample :
    ((runOps initialStore
        [CandleOp.resync [candleAt 1000 1, candleAt 1000 2]]).candles.map
      Candle.startTime) = [1000, 1000]
    ∧ ¬ (((runOps initialStore
        [CandleOp.resync [candleAt 1000 1, candleAt 1000 2]]).candles.map
      Candle.startTime)).Nodup := by
  exact ⟨by decide, by decide⟩

/-- C1 witness: a concrete resync with distinct buckets followed by an upsert
keeps the series invariant. -/
theorem candle_series_invariant_witness :
    SeriesOK initialStore.candles
    ∧ (∀ op ∈ [CandleOp.resync [candleAt 1000 1, candleAt 2000 2],
        CandleOp.upsert (candleAt 3000 3)], opInputOK op)
    ∧ SeriesOK (runOps initialStore
        [CandleOp.resync [candleAt 1000 1, candleAt 2000 2],
         CandleOp.upsert (candleAt 3000 3)]).candles := by
  have h1 : SeriesOK initialStore.candles := ⟨List.Pairwise.nil, by decide⟩
  have h2 : ∀ op ∈ [CandleOp.resync [candleAt 1000 1, candleAt 2000 2],
      CandleOp.upsert (candleAt 3000 3)], opInputOK op := by decide
  exact ⟨h1, h2, candle_series_invariant _ _ h1 h2⟩

/-! ## Claim C2 -/

theorem settle_foldl (settled : List (Exchange × FetchResult)) :
    ∀ acc, settled.foldl settleStep acc =
      (acc.1 ++ survivingRows settled, acc.2 ++ statusRows settled) := by
  induction settled with
  | nil => intro acc; simp [survivingRows, statusRows]
  | cons it rest ih =>
    intro acc
    cases hit : it.2 with
    | fulfilled rawBids =>
      simp only [List.foldl_cons, settleStep, hit, ih, survivingRows, statusRows,
        List.map_cons, List.flatten_cons, List.append_assoc, List.cons_append,
        List.nil_append, Prod.mk.injEq, and_self]
    | rejected reason =>
      simp only [List.foldl_cons, settleStep, hit, ih, survivingRows, statusRows,
        List.map_cons, List.flatten_cons, List.append_assoc, List.cons_append,
        List.nil_append, Prod.mk.injEq, and_self]

/-- C2: for every aggregation cycle, the published rows are exactly the
fulfilled venues' surviving rows (per venue: mapped, filtered by the price and
size floors, sorted descending by notional, capped at 12), merged, globally
re-sorted descending by notional and truncated to the global top 12 (so when
at most 12 rows survive, the publication is a permutation of them); and the
published status records `ok` for each fulfilled venue and `error` with the
reason's message for each rejected one. -/
theorem topBuyers_merge_spec (settled : List (Exchange × FetchResult)) :
    (refreshTopBuyersGlobal settled).rows
        = (sortByNotionalDesc (survivingRows settled)).take TOP_BUYERS_LIMIT
    ∧ (refreshTopBuyersGlobal settled).exchanges = statusRows settled
    ∧ (refreshTopBuyersGlobal settled).rows.Pairwise rowGE
    ∧ ((survivingRows settled).length ≤ TOP_BUYERS_LIMIT →
        List.Perm (refreshTopBuyersGlobal settled).rows (survivingRows settled))
    ∧ (∀ (rawBids : List (JSValue × JSValue)) (ex : Exchange),
        (mapRawBidsToRows rawBids ex).Pairwise rowGE
        ∧ (mapRawBidsToRows rawBids ex).length ≤ TOP_BUYERS_LIMIT
        ∧ ∀ r ∈ mapRawBidsToRows rawBids ex,
            0 < r.price ∧ MIN_TOP_BUYER_BTC ≤ r.size) := by
  have hfold := settle_foldl settled ([], [])
  have hrows : (refreshTopBuyersGlobal settled).rows
      = (sortByNotionalDesc (survivingRows settled)).take TOP_BUYERS_LIMIT := by
    simp [refreshTopBuyersGlobal, hfold]
  refine ⟨hrows, by simp [refreshTopBuyersGlobal, hfold], ?_, ?_, ?_⟩
  · rw [hrows]
    exact List.Pairwise.sublist (List.take_sublist _ _)
      (List.sorted_insertionSort rowGE _)
  · intro hlen
    have hlen2 : (sortByNotionalDesc (survivingRows settled)).length
        ≤ TOP_BUYERS_LIMIT := by
      rw [sortByNotionalDesc, List.length_insertionSort]; exact hlen
    rw [hrows, List.take_of_length_le hlen2]
    exact List.perm_insertionSort rowGE _
  · intro rawBids ex
    refine ⟨?_, ?_, ?_⟩
    · exact List.Pairwise.sublist (List.take_sublist _ _)
        (List.sorted_insertionSort rowGE _)
    · exact List.length_take_le _ _
    · intro r hr
      simp only [mapRawBidsToRows] at hr
      have hr2 := List.mem_of_mem_take hr
      have hr3 := (List.perm_insertionSort rowGE _).mem_iff.mp hr2
      have hpred := (List.mem_filter.mp hr3).2
      simp only [Bool.and_eq_true, decide_eq_true_eq] at hpred
      exact hpred

/-- C2 witness: the spec's scenario — venue A fulfilled with 3 surviving rows,
venue B rejected, venue C fulfilled with 2 — publishes a permutation of the
5 surviving rows and the status list `ok, error, ok`. -/
theorem topBuyers_merge_spec_witness :
    (survivingRows wSettled).length ≤ TOP_BUYERS_LIMIT
    ∧ List.Perm (refreshTopBuyersGlobal wSettled).rows (survivingRows wSettled)
    ∧ (refreshTopBuyersGlobal wSettled).exchanges =
        [{ exchange := "Binance", status := "ok", error := none },
         { exchange := "Bybit", status := "error", error := some "HTTP 500" },
         { exchange := "OKX", status := "ok", error := none }] := by
  have hlen : (survivingRows wSettled).length ≤ TOP_BUYERS_LIMIT := by
    norm_num [survivingRows, wSettled, mapRawBidsToRows, sortByNotionalDesc,
      wBidsBinance, wBidsOkx, toNumber, MIN_TOP_BUYER_BTC, TOP_BUYERS_LIMIT,
      binanceExchange, okxExchange, List.insertionSort, List.orderedInsert,
      List.filter]
  refine ⟨hlen, (topBuyers_merge_spec wSettled).2.2.2.1 hlen, ?_⟩
  rw [(topBuyers_merge_spec wSettled).2.1]
  decide

/-! ## Claim C3 -/

/-- C3: an ingested liquidation event below the notional floor is neither
retained nor broadcast and leaves the feed unchanged; otherwise it is
prepended (most-recent-first) and broadcast; after every ingest the retained
list has at most the capacity 30. -/
theorem liquidation_ingest_spec (st : LiquidationFeed) (item : Liquidation) :
    (item.notional < MIN_LIQUIDATION_NOTIONAL_USD → pushLiquidation st item = st)
    ∧ (MIN_LIQUIDATION_NOTIONAL_USD ≤ item.notional →
        (pushLiquidation st item).liquidations =
            (item :: st.liquidations).take MAX_LIQUIDATIONS
        ∧ (pushLiquidation st item).liquidations.head? = some item
        ∧ (pushLiquidation st item).emitted = st.emitted ++ [item])
    ∧ (st.liquidations.length ≤ MAX_LIQUIDATIONS →
        (pushLiquidation st item).liquidations.length ≤ MAX_LIQUIDATIONS) := by
  refine ⟨fun h => by simp [pushLiquidation, h], fun h => ?_, fun h => ?_⟩
  · have hnot : ¬ item.notional < MIN_LIQUIDATION_NOTIONAL_USD := not_lt.mpr h
    refine ⟨by simp [pushLiquidation, hnot], ?_, by simp [pushLiquidation, hnot]⟩
    simp only [pushLiquidation, hnot, if_neg]
    rw [show MAX_LIQUIDATIONS = 29 + 1 from rfl, List.take_succ_cons]
    rfl
  · by_cases hlt : item.notional < MIN_LIQUIDATION_NOTIONAL_USD
    · simpa [pushLiquidation, hlt] using h
    · simp only [pushLiquidation, hlt, if_neg]
      exact List.length_take_le _ _

/-- C3 witness: a 50,000 USD event is dropped with the feed unchanged; a
150,000 USD event is prepended, broadcast, and the capacity bound holds. -/
theorem liquidation_ingest_spec_witness :
    liqSmall.notional < MIN_LIQUIDATION_NOTIONAL_USD
    ∧ pushLiquidation emptyFeed liqSmall = emptyFeed
    ∧ MIN_LIQUIDATION_NOTIONAL_USD ≤ liqBig.notional
    ∧ (pushLiquidation emptyFeed liqBig).liquidations =
        (liqBig :: emptyFeed.liquidations).take MAX_LIQUIDATIONS
    ∧ (pushLiquidation emptyFeed liqBig).liquidations.head? = some liqBig
    ∧ (pushLiquidation emptyFeed liqBig).emitted = emptyFeed.emitted ++ [liqBig]
    ∧ (pushLiquidation emptyFeed liqBig).liquidations.length ≤ MAX_LIQUIDATIONS := by
  have h1 : liqSmall.notional < MIN_LIQUIDATION_NOTIONAL_USD := by decide
  have h2 : MIN_LIQUIDATION_NOTIONAL_USD ≤ liqBig.notional := by decide
  have h3 : emptyFeed.liquidations.length ≤ MAX_LIQUIDATIONS := by decide
  obtain ⟨ha, hb, hc⟩ := (liquidation_ingest_spec emptyFeed liqBig).2.1 h2
  exact ⟨h1, (liquidation_ingest_spec emptyFeed liqSmall).1 h1, h2, ha, hb, hc,
    (liquidation_ingest_spec emptyFeed liqBig).2.2 h3⟩

/-! ## Claim C4 -/

/-- C4: four consecutive connection failures schedule the delays `base`,
`2*base`, `4*base`, `min(maxDelay, 8*base)`; the delay for attempt `k` is
`min(15000, 1000 * 2 ^ (k - 1))`; and the attempt counter resets to 0
immediately on a successful open. -/
theorem reconnect_backoff_spec :
    (runFailureCycles 4 initialReconnectState).2 =
      [RECONNECT_BASE_DELAY_MS, 2 * RECONNECT_BASE_DELAY_MS,
        4 * RECONNECT_BASE_DELAY_MS,
        min RECONNECT_MAX_DELAY_MS (8 * RECONNECT_BASE_DELAY_MS)]
    ∧ (∀ k : Nat, reconnectDelay k =
        min RECONNECT_MAX_DELAY_MS (RECONNECT_BASE_DELAY_MS * 2 ^ (k - 1)))
    ∧ (∀ st : ReconnectState, (binanceSocketOpen st).reconnectAttempt = 0) := by
  refine ⟨by decide, fun k => ?_, fun st => rfl⟩
  rw [reconnectDelay, Nat.min_comm]

/-! ## Claim C5 -/

theorem pickFirstNumber_three_fallback {a b : JSValue} {r : ℚ}
    (h1 : toNumber a ≤ 0) (h2 : toNumber b ≤ 0) (hr : 0 < r) :
    pickFirstNumber [a, b, some (JSNum.fin r)] = r := by
  have hfin : toNumber (some (JSNum.fin r)) = r := rfl
  simp only [pickFirstNumber]
  rw [if_neg (not_lt.mpr h1), if_neg (not_lt.mpr h2), hfin, if_pos hr]

/-- C5 (amended): every liquidation retained by an ingest has notional at
least the floor; events built by the Binance and Bybit handlers always
satisfy `notional = price * qty`; the OKX handler only falls back to
`price * qty` when neither venue-reported notional field (`notionalUsd`,
`usdSz`) coerces to a positive number. -/
theorem liquidation_notional_spec :
    (∀ (st : LiquidationFeed) (item x : Liquidation),
        x ∈ (pushLiquidation st item).liquidations →
        x ∈ st.liquidations ∨ (x = item ∧ MIN_LIQUIDATION_NOTIONAL_USD ≤ x.notional))
    ∧ (∀ (order : BinanceForceOrder) (now : ℚ) (e : Liquidation),
        binanceForceEvent order now = some e → e.notional = e.price * e.qty)
    ∧ (∀ (entry : BybitLiqRow) (pts : JSValue) (now : ℚ) (e : Liquidation),
        bybitLiqEvent entry pts now = some e → e.notional = e.price * e.qty)
    ∧ (∀ (entry : OkxLiqRow) (pts : JSValue) (now : ℚ) (e : Liquidation),
        okxLiqEvent entry pts now = some e →
        toNumber entry.notionalUsd ≤ 0 → toNumber entry.usdSz ≤ 0 →
        e.notional = e.price * e.qty) := by
  refine ⟨?_, ?_, ?_, ?_⟩
  · intro st item x hx
    by_cases h : item.notional < MIN_LIQUIDATION_NOTIONAL_USD
    · simp only [pushLiquidation, if_pos h] at hx
      exact Or.inl hx
    · simp only [pushLiquidation, if_neg h] at hx
      rcases List.mem_cons.mp (List.mem_of_mem_take hx) with rfl | hmem
      · exact Or.inr ⟨rfl, not_lt.mp h⟩
      · exact Or.inl hmem
  · intro order now e he
    simp only [binanceForceEvent] at he
    split at he
    · exact absurd he (by simp)
    · cases he
      rfl
  · intro entry pts now e he
    simp only [bybitLiqEvent] at he
    split at he
    · exact absurd he (by simp)
    · cases he
      rfl
  · intro entry pts now e he h1 h2
    simp only [okxLiqEvent] at he
    split at he
    · exact absurd he (by simp)
    · next hcond =>
      push_neg at hcond
      obtain ⟨hp, hq, -⟩ := hcond
      cases he
      exact pickFirstNumber_three_fallback h1 h2 (mul_pos hp hq)

/-- C5 counterexample: a retained OKX event whose venue-reported notional
(200000 USD) differs from `price * qty` (150000 USD), refuting
"notional = price * qty for every retained event". -/
theorem okx_notional_counterexample :
    okxLiqEvent okxRowCE none 1234 = some okxLiqCE
    ∧ okxLiqCE.notional ≠ okxLiqCE.price * okxLiqCE.qty
    ∧ MIN_LIQUIDATION_NOTIONAL_USD ≤ okxLiqCE.notional
    ∧ (pushLiquidation emptyFeed okxLiqCE).liquidations = [okxLiqCE] := by
  refine ⟨by decide, by norm_num [okxLiqCE], by decide, by decide⟩

/-- C5 witness: concrete Binance, Bybit and OKX messages whose events satisfy
the amended invariants, the OKX one through the `price * qty` fallback. -/
theorem liquidation_notional_spec_witness :
    binanceForceEvent binOrderW 5 = some binLiqW
    ∧ binLiqW.notional = binLiqW.price * binLiqW.qty
    ∧ bybitLiqEvent bybitRowW none 5 = some bybitLiqW
    ∧ bybitLiqW.notional = bybitLiqW.price * bybitLiqW.qty
    ∧ okxLiqEvent okxRowW none 5 = some okxLiqW
    ∧ okxLiqW.notional = okxLiqW.price * okxLiqW.qty
    ∧ binLiqW ∈ (pushLiquidation emptyFeed binLiqW).liquidations
    ∧ (binLiqW ∈ emptyFeed.liquidations ∨
        (binLiqW = binLiqW ∧ MIN_LIQUIDATION_NOTIONAL_USD ≤ binLiqW.notional)) := by
  have h1 : binanceForceEvent binOrderW 5 = some binLiqW := by
    norm_num [binanceForceEvent, binOrderW, binLiqW, toNumber, jsOr, truthy]
  have h2 : bybitLiqEvent bybitRowW none 5 = some bybitLiqW := by
    norm_num [bybitLiqEvent, bybitRowW, bybitLiqW, toNumber, pickFirstNumber,
      jsOrString]
    exact fun h => absurd h (by decide)
  have h3 : okxLiqEvent okxRowW none 5 = some okxLiqW := by
    norm_num [okxLiqEvent, okxRowW, okxLiqW, toNumber, pickFirstNumber,
      jsOrString]
    exact fun h => absurd h (by decide)
  have h4 : binLiqW ∈ (pushLiquidation emptyFeed binLiqW).liquidations := by
    decide
  exact ⟨h1, liquidation_notional_spec.2.1 binOrderW 5 binLiqW h1,
    h2, liquidation_notional_spec.2.2.1 bybitRowW none 5 bybitLiqW h2,
    h3, liquidation_notional_spec.2.2.2 okxRowW none 5 okxLiqW h3
      (by decide) (by decide),
    h4, liquidation_notional_spec.1 emptyFeed binLiqW binLiqW h4⟩

/-! ## Claim C6 -/

/-- C6 counterexample: after a resync to buckets 1000 (close 10) and 2000
(close 20), upserting a replacement for the OLDER bucket 1000 with close 5
sets the latest-price fallback to 5 while the last candle's close is 20. -/
theorem latestClose_counterexample :
    (upsertCandle (setCandles initialStore [candleAt 1000 10, candleAt 2000 20])
        (candleAt 1000 5)).latestClose = some 5
    ∧ ((upsertCandle (setCandles initialStore
          [candleAt 1000 10, candleAt 2000 20])
        (candleAt 1000 5)).candles.getLast?).map Candle.close = some 20
    ∧ (some (5 : ℚ) ≠ some (20 : ℚ)) := by
  exact ⟨by decide, by decide, by decide⟩

/-- C6 (amended): after a resync with a nonempty input the latest-price
fallback equals the close of the last candle; after `upsertCandle c` the
fallback equals `c.close`, which coincides with the last candle's close
whenever `c.startTime` is at least every `startTime` already in the (strictly
sorted) series — i.e. for in-order updates. -/
theorem latestClose_spec :
    (∀ (st : CandleStore) (next : List Candle), next ≠ [] →
        (setCandles st next).latestClose =
          ((setCandles st next).candles.getLast?).map Candle.close)
    ∧ (∀ (st : CandleStore) (c : Candle), st.candles.Pairwise candleLT →
        (∀ x ∈ st.candles, x.startTime ≤ c.startTime) →
        (upsertCandle st c).candles.getLast? = some c
        ∧ (upsertCandle st c).latestClose = some c.close
        ∧ (upsertCandle st c).latestClose =
            ((upsertCandle st c).candles.getLast?).map Candle.close) := by
  constructor
  · intro st next hne
    have hsne : sortByStartTime next ≠ [] := by
      intro h
      have hperm := sortByStartTime_perm next
      rw [h] at hperm
      exact hne (hperm.symm.eq_nil)
    have hcs : sliceLast MAX_CANDLES (sortByStartTime next) ≠ [] := by
      have hp : 0 < (sortByStartTime next).length := List.length_pos.mpr hsne
      have hM : MAX_CANDLES = 200 := rfl
      simp only [sliceLast]
      intro hcontra
      have := List.drop_eq_nil_iff.mp hcontra
      omega
    obtain ⟨last, hlast⟩ := Option.isSome_iff_exists.mp
      (List.getLast?_isSome.mpr hcs)
    simp only [setCandles, hlast, Option.map_some']
  · intro st c hpw hmax
    cases hf : st.candles.findIdx? (fun item => item.startTime == c.startTime) with
    | some i =>
      have hlast := upsert_found_getLast hpw hmax hf
      simp only [upsertCandle, hf]
      exact ⟨hlast, by trivial, by simp [hlast]⟩
    | none =>
      have hsorted := sortByStartTime_sorted (st.candles ++ [c])
      have hperm := sortByStartTime_perm (st.candles ++ [c])
      have hmem : c ∈ sortByStartTime (st.candles ++ [c]) :=
        hperm.mem_iff.mpr (by simp)
      have hmax2 : ∀ y ∈ sortByStartTime (st.candles ++ [c]),
          y = c ∨ y.startTime < c.startTime := by
        intro y hy
        rcases List.mem_append.mp (hperm.mem_iff.mp hy) with hyl | hyc
        · right
          have hne2 : y.startTime ≠ c.startTime := by
            have := List.findIdx?_eq_none_iff.mp hf y hyl
            simpa using this
          exact lt_of_le_of_ne (hmax y hyl) hne2
        · exact Or.inl (List.mem_singleton.mp hyc)
      have hlastS : (sortByStartTime (st.candles ++ [c])).getLast? = some c :=
        getLast?_eq_of_sorted_max hmem hsorted hmax2
      have hne3 : sortByStartTime (st.candles ++ [c]) ≠ [] := by
        intro h
        rw [h] at hlastS
        exact absurd hlastS (by simp)
      have hfinal : (sliceLast MAX_CANDLES
          (sortByStartTime (st.candles ++ [c]))).getLast? = some c := by
        rw [sliceLast_getLast? (by decide) hne3]
        exact hlastS
      simp only [upsertCandle, hf]
      exact ⟨hfinal, by trivial, by simp [hfinal]⟩

/-- C6 witness: a resync to buckets 1000, 2000 followed by an in-order upsert
of bucket 3000 keeps the fallback equal to the last candle's close. -/
theorem latestClose_spec_witness :
    (([candleAt 1000 10, candleAt 2000 20] : List Candle) ≠ [])
    ∧ (setCandles initialStore [candleAt 1000 10, candleAt 2000 20]).latestClose =
        ((setCandles initialStore
          [candleAt 1000 10, candleAt 2000 20]).candles.getLast?).map Candle.close
    ∧ (setCandles initialStore
        [candleAt 1000 10, candleAt 2000 20]).candles.Pairwise candleLT
    ∧ (∀ x ∈ (setCandles initialStore
        [candleAt 1000 10, candleAt 2000 20]).candles,
        x.startTime ≤ (candleAt 3000 30).startTime)
    ∧ (upsertCandle (setCandles initialStore [candleAt 1000 10, candleAt 2000 20])
        (candleAt 3000 30)).candles.getLast? = some (candleAt 3000 30)
    ∧ (upsertCandle (setCandles initialStore [candleAt 1000 10, candleAt 2000 20])
        (candleAt 3000 30)).latestClose = some (candleAt 3000 30).close := by
  have h1 : ([candleAt 1000 10, candleAt 2000 20] : List Candle) ≠ [] := by decide
  have h3 : (setCandles initialStore
      [candleAt 1000 10, candleAt 2000 20]).candles.Pairwise candleLT := by decide
  have h4 : ∀ x ∈ (setCandles initialStore
      [candleAt 1000 10, candleAt 2000 20]).candles,
      x.startTime ≤ (candleAt 3000 30).startTime := by decide
  obtain ⟨ha, hb, -⟩ := latestClose_spec.2
    (setCandles initialStore [candleAt 1000 10, candleAt 2000 20])
    (candleAt 3000 30) h3 h4
  exact ⟨h1, latestClose_spec.1 initialStore _ h1, h3, h4, ha, hb⟩

/-! ## Claim C7 -/

/-- C7 (amended): the client's trade application compares the trade's bucket
with the LAST candle's bucket only: it appends exactly one seeded candle
(`o = h = l = c = price`) when the series is empty or the last bucket differs,
and otherwise extends the last candle's `h`/`l`/`c` — in each case followed
only by the capacity trim. When the trade's bucket is at least every bucket of
the (strictly sorted) series, a present bucket is necessarily the last
candle's, so "bucket present ⇒ the existing candle is extended" and "bucket
absent ⇒ exactly one new candle" hold for in-order trades. -/
theorem applyTrade_spec :
    (∀ (trade : Trade) (iv : ℚ) (mx : Nat),
        upsertCandleFromTrade [] trade iv mx =
          sliceLast mx [seededCandle trade (bucketStart trade.ts iv)])
    ∧ (∀ (cs : List ClientCandle) (trade : Trade) (iv : ℚ) (mx : Nat)
        (last : ClientCandle), cs.getLast? = some last →
        last.x = bucketStart trade.ts iv →
        upsertCandleFromTrade cs trade iv mx =
          sliceLast mx (cs.dropLast ++ [extendedCandle last trade]))
    ∧ (∀ (cs : List ClientCandle) (trade : Trade) (iv : ℚ) (mx : Nat)
        (last : ClientCandle), cs.getLast? = some last →
        last.x ≠ bucketStart trade.ts iv →
        upsertCandleFromTrade cs trade iv mx =
          sliceLast mx (cs ++ [seededCandle trade (bucketStart trade.ts iv)]))
    ∧ (∀ (cs : List ClientCandle) (trade : Trade) (iv : ℚ),
        cs.Pairwise (fun a b => a.x < b.x) →
        (∀ y ∈ cs, y.x ≤ bucketStart trade.ts iv) →
        bucketStart trade.ts iv ∈ cs.map ClientCandle.x →
        ∃ last, cs.getLast? = some last ∧ last.x = bucketStart trade.ts iv) := by
  refine ⟨?_, ?_, ?_, ?_⟩
  · intro trade iv mx
    rfl
  · intro cs trade iv mx last hlast hx
    simp only [upsertCandleFromTrade, hlast, if_pos hx]
  · intro cs trade iv mx last hlast hx
    simp only [upsertCandleFromTrade, hlast, if_neg hx]
  · intro cs trade iv hpw hmax hmem
    rcases List.mem_map.mp hmem with ⟨w, hw, hwx⟩
    have hle : cs.Pairwise (fun a b => a.x ≤ b.x) := hpw.imp fun h => le_of_lt h
    have hmax2 : ∀ y ∈ cs, y = w ∨ y.x < w.x := by
      intro y hy
      rcases lt_or_eq_of_le (hwx ▸ hmax y hy) with hlt | heq
      · exact Or.inr hlt
      · exact Or.inl (eq_of_mem_key_eq_of_pairwise_lt hpw hy hw heq)
    exact ⟨w, getLast?_eq_of_sorted_max hw hle hmax2, hwx⟩

/-- C7 counterexample: with candles for buckets 0 and 60000 in the series, a
trade in the PRESENT but non-last bucket 0 appends a duplicate bucket-0 candle
instead of extending the existing one, refuting "creates only when the bucket
is absent, never both". -/
theorem applyTrade_bucket_counterexample :
    (([⟨0, 1, 1, 1, 1, none⟩, ⟨60000, 2, 2, 2, 2, none⟩] :
        List ClientCandle).map ClientCandle.x) = [0, 60000]
    ∧ (upsertCandleFromTrade
        [⟨0, 1, 1, 1, 1, none⟩, ⟨60000, 2, 2, 2, 2, none⟩]
        { price := 9, qty := 1, ts := 30000, side := "buy" } 60000 500).map
          ClientCandle.x = [0, 60000, 0]
    ∧ ¬ ((upsertCandleFromTrade
        [⟨0, 1, 1, 1, 1, none⟩, ⟨60000, 2, 2, 2, 2, none⟩]
        { price := 9, qty := 1, ts := 30000, side := "buy" } 60000 500).map
          ClientCandle.x).Nodup := by
  have hb : bucketStart 30000 60000 = 0 := by
    norm_num [bucketStart]
  have hrun : upsertCandleFromTrade
      [⟨0, 1, 1, 1, 1, none⟩, ⟨60000, 2, 2, 2, 2, none⟩]
      { price := 9, qty := 1, ts := 30000, side := "buy" } 60000 500 =
      [⟨0, 1, 1, 1, 1, none⟩, ⟨60000, 2, 2, 2, 2, none⟩,
        ⟨0, 9, 9, 9, 9, none⟩] := by
    rw [upsertCandleFromTrade]
    norm_num [hb, seededCandle, sliceLast]
  rw [hrun]
  exact ⟨by decide, by decide, by decide⟩

/-- C7 witness: an in-order trade inside the last candle's bucket extends it;
a trade opening a later bucket appends exactly one seeded candle; the
present-bucket-is-last equivalence at a concrete sorted series. -/
theorem applyTrade_spec_witness :
    (([⟨0, 1, 2, 1, 1, none⟩] : List ClientCandle).getLast? =
        some (⟨0, 1, 2, 1, 1, none⟩ : ClientCandle))
    ∧ (⟨0, 1, 2, 1, 1, none⟩ : ClientCandle).x =
        bucketStart (30000 : ℚ) 60000
    ∧ upsertCandleFromTrade [⟨0, 1, 2, 1, 1, none⟩]
        { price := 5, qty := 1, ts := 30000, side := "buy" } 60000 500 =
        sliceLast 500 (([⟨0, 1, 2, 1, 1, none⟩] : List ClientCandle).dropLast ++
          [extendedCandle ⟨0, 1, 2, 1, 1, none⟩
            { price := 5, qty := 1, ts := 30000, side := "buy" }])
    ∧ (⟨0, 1, 2, 1, 1, none⟩ : ClientCandle).x ≠
        bucketStart (70000 : ℚ) 60000
    ∧ upsertCandleFromTrade [⟨0, 1, 2, 1, 1, none⟩]
        { price := 5, qty := 1, ts := 70000, side := "buy" } 60000 500 =
        sliceLast 500 ([⟨0, 1, 2, 1, 1, none⟩] ++
          [seededCandle { price := 5, qty := 1, ts := 70000, side := "buy" }
            (bucketStart (70000 : ℚ) 60000)])
    ∧ (∃ last, ([⟨0, 1, 2, 1, 1, none⟩] : List ClientCandle).getLast? =
        some last ∧ last.x = bucketStart (30000 : ℚ) 60000) := by
  have hb : bucketStart (30000 : ℚ) 60000 = 0 := by
    norm_num [bucketStart]
  have hb2 : bucketStart (70000 : ℚ) 60000 = 60000 := by
    norm_num [bucketStart]
  have h1 : (([⟨0, 1, 2, 1, 1, none⟩] : List ClientCandle).getLast? =
      some (⟨0, 1, 2, 1, 1, none⟩ : ClientCandle)) := rfl
  have h2 : (⟨0, 1, 2, 1, 1, none⟩ : ClientCandle).x =
      bucketStart (30000 : ℚ) 60000 := by rw [hb]
  have h4 : (⟨0, 1, 2, 1, 1, none⟩ : ClientCandle).x ≠
      bucketStart (70000 : ℚ) 60000 := by rw [hb2]; norm_num
  have hpw : ([⟨0, 1, 2, 1, 1, none⟩] : List ClientCandle).Pairwise
      (fun a b => a.x < b.x) := by decide
  have hmax : ∀ y ∈ ([⟨0, 1, 2, 1, 1, none⟩] : List ClientCandle),
      y.x ≤ bucketStart (30000 : ℚ) 60000 := by
    rw [hb]; decide
  have hmem : bucketStart (30000 : ℚ) 60000 ∈
      ([⟨0, 1, 2, 1, 1, none⟩] : List ClientCandle).map ClientCandle.x := by
    rw [hb]; decide
  exact ⟨h1, h2,
    applyTrade_spec.2.1 [⟨0, 1, 2, 1, 1, none⟩]
      { price := 5, qty := 1, ts := 30000, side := "buy" } 60000 500
      ⟨0, 1, 2, 1, 1, none⟩ h1 h2, h4,
    applyTrade_spec.2.2.1 [⟨0, 1, 2, 1, 1, none⟩]
      { price := 5, qty := 1, ts := 70000, side := "buy" } 60000 500
      ⟨0, 1, 2, 1, 1, none⟩ h1 h4,
    applyTrade_spec.2.2.2 [⟨0, 1, 2, 1, 1, none⟩]
      { price := 5, qty := 1, ts := 30000, side := "buy" } 60000 hpw hmax hmem⟩

/-! ## Claim C8 -/

theorem secondBucket_add_1000 (t : ℚ) :
    secondBucketOf (t + 1000) = secondBucketOf t + 1 := by
  unfold secondBucketOf
  rw [show (t + 1000) / 1000 = t / 1000 + 1 by ring, Int.floor_add_one]

theorem emit_step {st : PriceState} (h : PriceInv st) (close ts : ℚ)
    (hmono : ∀ b, st.lastSecondBucket = some b → b ≤ secondBucketOf ts) :
    PriceInv (emitSecondPrice st close ts) ∧
    (emitSecondPrice st close ts).lastSecondBucket = some (secondBucketOf ts) := by
  obtain ⟨hpw, hbound⟩ := h
  by_cases heq : st.lastSecondBucket = some (secondBucketOf ts)
  · have hstep : emitSecondPrice st close ts =
        { st with latestSecondPrice := some close, latestSecondTs := some ts } := by
      simp only [emitSecondPrice]
      rw [if_pos heq]
    rw [hstep]
    exact ⟨⟨hpw, fun x hx => hbound x hx⟩, heq⟩
  · have hstep : emitSecondPrice st close ts =
        { latestSecondPrice := some close, latestSecondTs := some ts
          lastSecondBucket := some (secondBucketOf ts)
          emitted := st.emitted ++ [(close, ts)] } := by
      simp only [emitSecondPrice]
      rw [if_neg heq]
    have hold : ∀ x ∈ emittedBuckets st, x < secondBucketOf ts := by
      intro x hx
      obtain ⟨b, hb, hxb⟩ := hbound x hx
      have hbs : b ≤ secondBucketOf ts := hmono b hb
      have hbne : b ≠ secondBucketOf ts := by
        intro hcontra
        exact heq (hcontra ▸ hb)
      exact lt_of_le_of_lt hxb (lt_of_le_of_ne hbs hbne)
    rw [hstep]
    have hEB : emittedBuckets
        { latestSecondPrice := some close, latestSecondTs := some ts
          lastSecondBucket := some (secondBucketOf ts)
          emitted := st.emitted ++ [(close, ts)] } =
        emittedBuckets st ++ [secondBucketOf ts] := by
      show (st.emitted ++ [(close, ts)]).map _ = _
      rw [List.map_append]
      rfl
    refine ⟨⟨?_, ?_⟩, rfl⟩
    · rw [hEB, List.pairwise_append]
      refine ⟨hpw, List.pairwise_singleton _ _, ?_⟩
      intro a ha b hb
      rcases List.mem_singleton.mp hb with rfl
      exact hold a ha
    · intro x hx
      rw [hEB] at hx
      refine ⟨secondBucketOf ts, rfl, ?_⟩
      rcases List.mem_append.mp hx with hx1 | hx2
      · exact le_of_lt (hold x hx1)
      · rcases List.mem_singleton.mp hx2 with rfl
        exact le_refl _

theorem emitRun_inv (calls : List (ℚ × ℚ)) :
    ∀ st : PriceState, PriceInv st →
    List.Chain' (· ≤ ·)
      (st.lastSecondBucket.toList ++ calls.map (fun cl => secondBucketOf cl.2)) →
    PriceInv (emitRun st calls) := by
  induction calls with
  | nil => intro st h _; exact h
  | cons cl rest ih =>
    intro st h hchain
    have hmono : ∀ b, st.lastSecondBucket = some b → b ≤ secondBucketOf cl.2 := by
      intro b hb
      rw [hb] at hchain
      exact (List.chain'_cons.mp (by simpa using hchain)).1
    obtain ⟨hinv2, hlast2⟩ := emit_step h cl.1 cl.2 hmono
    have hchain2 : List.Chain' (· ≤ ·)
        ((emitSecondPrice st cl.1 cl.2).lastSecondBucket.toList ++
          rest.map (fun cl => secondBucketOf cl.2)) := by
      rw [hlast2]
      cases hsb : st.lastSecondBucket with
      | none =>
        rw [hsb] at hchain
        simpa using hchain
      | some b =>
        rw [hsb] at hchain
        have := (List.chain'_cons.mp (by simpa using hchain)).2
        simpa using this
    simpa only [emitRun, List.foldl_cons] using ih (emitSecondPrice st cl.1 cl.2)
      hinv2 hchain2

theorem heartbeat_tick_emits {st : PriceState} {p : ℚ}
    (hp : st.latestSecondPrice = some p) {t : ℚ}
    (hb : ¬ st.lastSecondBucket = some (secondBucketOf t)) :
    secondHeartbeatTick st t =
      { latestSecondPrice := some p, latestSecondTs := some t
        lastSecondBucket := some (secondBucketOf t)
        emitted := st.emitted ++ [(p, t)] } := by
  simp only [secondHeartbeatTick, hp, emitSecondPrice, if_neg hb]

/-- C8 (amended): `emitSecondPrice` emits only when the one-second bucket
differs from the last emission's bucket; whenever the triggering timestamps
have nondecreasing second-buckets (as with the once-per-second heartbeat
clock), the emitted buckets are strictly increasing — so no two emitted price
events share a bucket — and with no new trade three consecutive heartbeat
ticks emit exactly one price event each. -/
theorem price_emission_spec :
    (∀ calls : List (ℚ × ℚ),
        List.Chain' (· ≤ ·) (calls.map (fun cl => secondBucketOf cl.2)) →
        (emittedBuckets (emitRun initialPriceState calls)).Pairwise (· < ·)
        ∧ (emittedBuckets (emitRun initialPriceState calls)).Pairwise (· ≠ ·))
    ∧ (∀ (st : PriceState) (p : ℚ) (b : ℤ) (t0 : ℚ),
        st.latestSecondPrice = some p → st.lastSecondBucket = some b →
        b < secondBucketOf t0 →
        (secondHeartbeatTick (secondHeartbeatTick (secondHeartbeatTick st t0)
            (t0 + 1000)) (t0 + 2000)).emitted.length = st.emitted.length + 3) := by
  constructor
  · intro calls hchain
    have hinit : PriceInv initialPriceState := by
      refine ⟨List.Pairwise.nil, ?_⟩
      intro x hx
      exact absurd hx (List.not_mem_nil x)
    have h := emitRun_inv calls initialPriceState hinit (by simpa using hchain)
    exact ⟨h.1, h.1.imp fun hlt => ne_of_lt hlt⟩
  · intro st p b t0 hp hb hlt
    have hne1 : ¬ st.lastSecondBucket = some (secondBucketOf t0) := by
      rw [hb]
      simpa using ne_of_lt hlt
    have e1 := heartbeat_tick_emits hp hne1
    have e2 : secondHeartbeatTick
        { latestSecondPrice := some p, latestSecondTs := some t0
          lastSecondBucket := some (secondBucketOf t0)
          emitted := st.emitted ++ [(p, t0)] } (t0 + 1000) =
        { latestSecondPrice := some p, latestSecondTs := some (t0 + 1000)
          lastSecondBucket := some (secondBucketOf (t0 + 1000))
          emitted := (st.emitted ++ [(p, t0)]) ++ [(p, t0 + 1000)] } := by
      refine heartbeat_tick_emits rfl ?_
      rw [secondBucket_add_1000]
      intro hcontra
      rw [Option.some_inj] at hcontra
      omega
    have e3 : secondHeartbeatTick
        { latestSecondPrice := some p, latestSecondTs := some (t0 + 1000)
          lastSecondBucket := some (secondBucketOf (t0 + 1000))
          emitted := (st.emitted ++ [(p, t0)]) ++ [(p, t0 + 1000)] } (t0 + 2000) =
        { latestSecondPrice := some p, latestSecondTs := some (t0 + 2000)
          lastSecondBucket := some (secondBucketOf (t0 + 2000))
          emitted := ((st.emitted ++ [(p, t0)]) ++ [(p, t0 + 1000)]) ++
            [(p, t0 + 2000)] } := by
      refine heartbeat_tick_emits rfl ?_
      rw [show (t0 + 2000 : ℚ) = (t0 + 1000) + 1000 by ring,
        secondBucket_add_1000 (t0 + 1000)]
      intro hcontra
      rw [Option.some_inj] at hcontra
      omega
    rw [e1, e2, e3]
    simp [List.length_append]

/-- C8 counterexample: trade-driven emissions at timestamps 1000, 2500, 1500
(the third regressing behind the second) produce emitted buckets 1, 2, 1 —
two price events in the same one-second bucket, refuting the claim that no
two emitted events ever share a bucket. -/
theorem price_bucket_counterexample :
    emittedBuckets (emitRun initialPriceState [(10, 1000), (10, 2500), (10, 1500)])
      = [1, 2, 1]
    ∧ ¬ (emittedBuckets (emitRun initialPriceState
        [(10, 1000), (10, 2500), (10, 1500)])).Pairwise (· ≠ ·) := by
  have hb1 : secondBucketOf 1000 = 1 := by norm_num [secondBucketOf]
  have hb2 : secondBucketOf 2500 = 2 := by norm_num [secondBucketOf]
  have hb3 : secondBucketOf 1500 = 1 := by norm_num [secondBucketOf]
  have s1 : emitSecondPrice initialPriceState 10 1000 =
      { latestSecondPrice := some 10, latestSecondTs := some 1000
        lastSecondBucket := some 1, emitted := [(10, 1000)] } := by
    simp [emitSecondPrice, initialPriceState, hb1]
  have s2 : emitSecondPrice
      { latestSecondPrice := some 10, latestSecondTs := some 1000
        lastSecondBucket := some 1, emitted := [(10, 1000)] } 10 2500 =
      { latestSecondPrice := some 10, latestSecondTs := some 2500
        lastSecondBucket := some 2, emitted := [(10, 1000), (10, 2500)] } := by
    simp [emitSecondPrice, hb2]
  have s3 : emitSecondPrice
      { latestSecondPrice := some 10, latestSecondTs := some 2500
        lastSecondBucket := some 2, emitted := [(10, 1000), (10, 2500)] } 10 1500 =
      { latestSecondPrice := some 10, latestSecondTs := some 1500
        lastSecondBucket := some 1
        emitted := [(10, 1000), (10, 2500), (10, 1500)] } := by
    simp [emitSecondPrice, hb3]
  have h : emittedBuckets
      (emitRun initialPriceState [(10, 1000), (10, 2500), (10, 1500)]) = [1, 2, 1] := by
    simp only [emitRun, List.foldl_cons, List.foldl_nil]
    rw [s1, s2, s3]
    simp [emittedBuckets, hb1, hb2, hb3]
  refine ⟨h, ?_⟩
  rw [h]
  decide

/-- C8 witness: three monotone emissions have pairwise-distinct buckets, and
three heartbeat ticks from a known-price state emit exactly three events. -/
theorem price_emission_spec_witness :
    List.Chain' (· ≤ ·)
      (([(10, 1000), (20, 2000), (30, 3500)] : List (ℚ × ℚ)).map
        (fun cl => secondBucketOf cl.2))
    ∧ (emittedBuckets (emitRun initialPriceState
        [(10, 1000), (20, 2000), (30, 3500)])).Pairwise (· ≠ ·)
    ∧ ({ latestSecondPrice := some 42, latestSecondTs := some 0
         lastSecondBucket := some 0, emitted := [] } : PriceState).latestSecondPrice
        = some 42
    ∧ ({ latestSecondPrice := some 42, latestSecondTs := some 0
         lastSecondBucket := some 0, emitted := [] } : PriceState).lastSecondBucket
        = some 0
    ∧ (0 : ℤ) < secondBucketOf 1000
    ∧ (secondHeartbeatTick (secondHeartbeatTick (secondHeartbeatTick
        ({ latestSecondPrice := some 42, latestSecondTs := some 0
           lastSecondBucket := some 0, emitted := [] } : PriceState) 1000)
        (1000 + 1000)) (1000 + 2000)).emitted.length =
      ({ latestSecondPrice := some 42, latestSecondTs := some 0
         lastSecondBucket := some 0, emitted := [] } : PriceState).emitted.length + 3 := by
  have hchain : List.Chain' (· ≤ ·)
      (([(10, 1000), (20, 2000), (30, 3500)] : List (ℚ × ℚ)).map
        (fun cl => secondBucketOf cl.2)) := by
    norm_num [secondBucketOf, List.chain'_cons]
  have hbkt : (0 : ℤ) < secondBucketOf 1000 := by
    norm_num [secondBucketOf]
  exact ⟨hchain, (price_emission_spec.1 _ hchain).2, rfl, rfl, hbkt,
    price_emission_spec.2
      { latestSecondPrice := some 42, latestSecondTs := some 0
        lastSecondBucket := some 0, emitted := [] } 42 0 1000 rfl rfl hbkt⟩

/-! ## Claim C9 -/

/-- C9 counterexample: with candidates `[-5, 7]` the first PRESENT candidate
field has numeric value -5, but `pickFirstNumber` skips it (it is not
strictly positive) and returns 7 — refuting "returns the numeric value of the
first present candidate field". -/
theorem pickFirstNumber_counterexample :
    pickFirstNumber [some (JSNum.fin (-5)), some (JSNum.fin 7)] = 7
    ∧ pickFirstPresentSpec [some (JSNum.fin (-5)), some (JSNum.fin 7)] = -5
    ∧ pickFirstNumber [some (JSNum.fin (-5)), some (JSNum.fin 7)] ≠
        pickFirstPresentSpec [some (JSNum.fin (-5)), some (JSNum.fin 7)] := by
  exact ⟨by decide, by decide, by decide⟩

/-- C9 (amended): the fallback-field resolution returns the numeric coercion
of the first candidate whose coercion is strictly positive (absent,
non-numeric, zero and negative candidates are all skipped), and the rejection
sentinel 0 when no candidate qualifies. -/
theorem pickFirstNumber_spec (values : List JSValue) :
    pickFirstNumber values =
      match values.find? (fun v => decide (0 < toNumber v)) with
      | some v => toNumber v
      | none => 0 := by
  induction values with
  | nil => rfl
  | cons v rest ih =>
    by_cases h : 0 < toNumber v
    · rw [List.find?_cons_of_pos _ (by simpa using h)]
      simp only [pickFirstNumber, if_pos h]
    · rw [List.find?_cons_of_neg _ (by simpa using h)]
      simp only [pickFirstNumber, if_neg h]
      exact ih

/-! ## Claim C10 -/

theorem jsDiv_mul_finite {a b : ℚ} (hb : b ≠ 0) :
    jsMul (jsDiv a b) 100 = JSNum.fin (a / b * 100) := by
  simp only [jsDiv, if_neg hb, jsMul]

/-- C10: `toNumber` is total and always yields a finite number — the coerced
value itself when that is finite and 0 otherwise — and therefore every numeric
field of a normalized REST candle, websocket candle, top-buyer row, or market
row is finite (never NaN or Infinity): candle and top-buyer fields are
`toNumber` images (with the row's notional the product of its price and size
coercions); every published market row has a positive price and a finite
`changePercent`, coming either from a crypto ticker item (all fields
`toNumber` images) or from a stock CSV line (price the close coercion,
`changeValue = close - open`, and `changePercent` the division
`(close - open) / open * 100` guarded by `open > 0`, hence finite). -/
theorem toNumber_total_spec :
    (∀ v : JSValue, toNumber v = (finitePart v).getD 0)
    ∧ (∀ q : ℚ, toNumber (some (JSNum.fin q)) = q)
    ∧ (∀ v : JSValue, finitePart v = none → toNumber v = 0)
    ∧ (∀ entry : RawRestKline, normalizeRestKline entry =
        { startTime := toNumber entry.f0, open_ := toNumber entry.f1
          high := toNumber entry.f2, low := toNumber entry.f3
          close := toNumber entry.f4, volume := toNumber entry.f5
          isClosed := true })
    ∧ (∀ kline : RawWsKline, normalizeWsKline kline =
        { startTime := toNumber kline.t, open_ := toNumber kline.o
          high := toNumber kline.h, low := toNumber kline.l
          close := toNumber kline.c, volume := toNumber kline.v
          isClosed := kline.x })
    ∧ (∀ (rawBids : List (JSValue × JSValue)) (ex : Exchange),
        ∀ r ∈ mapRawBidsToRows rawBids ex, ∃ item ∈ rawBids,
          r.price = toNumber item.1 ∧ r.size = toNumber item.2
          ∧ r.notional = toNumber item.1 * toNumber item.2)
    ∧ (∀ (cryptoPayload : List RawTickerItem) (stockLines : List StockCsvLine),
        ∀ r ∈ refreshMarketsRows cryptoPayload stockLines,
          (∃ q : ℚ, r.changePercent = JSNum.fin q)
          ∧ 0 < r.price
          ∧ ((∃ item ∈ cryptoPayload,
                r.price = toNumber item.lastPrice
                ∧ r.changeValue = toNumber item.priceChange
                ∧ r.changePercent = JSNum.fin (toNumber item.priceChangePercent))
             ∨ (∃ line ∈ stockLines,
                0 < toNumber (line.cols.getD 3 ("", none)).2
                ∧ r.price = toNumber (line.cols.getD 6 ("", none)).2
                ∧ r.changeValue = toNumber (line.cols.getD 6 ("", none)).2 -
                    toNumber (line.cols.getD 3 ("", none)).2
                ∧ r.changePercent = JSNum.fin
                    ((toNumber (line.cols.getD 6 ("", none)).2 -
                      toNumber (line.cols.getD 3 ("", none)).2) /
                      toNumber (line.cols.getD 3 ("", none)).2 * 100)))) := by
  refine ⟨?_, fun q => rfl, ?_, fun entry => rfl, fun kline => rfl, ?_, ?_⟩
  · intro v
    match v with
    | some (JSNum.fin q) => rfl
    | some JSNum.nan => rfl
    | some JSNum.posInf => rfl
    | some JSNum.negInf => rfl
    | none => rfl
  · intro v hv
    match v with
    | some (JSNum.fin q) => exact absurd hv (by simp [finitePart])
    | some JSNum.nan => rfl
    | some JSNum.posInf => rfl
    | some JSNum.negInf => rfl
    | none => rfl
  · intro rawBids ex r hr
    simp only [mapRawBidsToRows, sortByNotionalDesc] at hr
    have hr2 := List.mem_of_mem_take hr
    have hr3 := (List.perm_insertionSort rowGE _).mem_iff.mp hr2
    have hr4 := (List.mem_filter.mp hr3).1
    rcases List.mem_map.mp hr4 with ⟨item, hitem, rfl⟩
    exact ⟨item, hitem, rfl, rfl, rfl⟩
  · intro cryptoPayload stockLines r hr
    simp only [refreshMarketsRows] at hr
    obtain ⟨hmem, hpred⟩ := List.mem_filter.mp hr
    simp only [Bool.and_eq_true, decide_eq_true_eq] at hpred
    rcases List.mem_append.mp hmem with hcry | hstk
    · simp only [cryptoRowsOf, sortByQuoteVolumeDesc] at hcry
      rcases List.mem_map.mp hcry with ⟨full, hfull, rfl⟩
      have h2 := List.mem_of_mem_take hfull
      have h3 := (List.perm_insertionSort cryptoGE _).mem_iff.mp h2
      have h4 := (List.mem_filter.mp h3).1
      rcases List.mem_map.mp h4 with ⟨item, hitem, rfl⟩
      have hpay := (List.mem_filter.mp hitem).1
      exact ⟨⟨toNumber item.priceChangePercent, rfl⟩, hpred.2,
        Or.inl ⟨item, hpay, rfl, rfl, rfl⟩⟩
    · rcases List.mem_filterMap.mp hstk with ⟨line, hline, hsome⟩
      simp only [stockRowOfLine] at hsome
      split at hsome
      · exact absurd hsome (by simp)
      · split at hsome
        · exact absurd hsome (by simp)
        · next hguard =>
          push_neg at hguard
          obtain ⟨-, hop, hcl⟩ := hguard
          cases hsome
          exact ⟨⟨_, jsDiv_mul_finite (ne_of_gt hop)⟩, hpred.2,
            Or.inr ⟨line, hline, hop, rfl, rfl,
              jsDiv_mul_finite (ne_of_gt hop)⟩⟩

/-- C10 witness: a concrete raw bid row whose normalized fields are the
`toNumber` images of its raw fields, and a concrete market publication with
one crypto row and one stock row, the stock row's `changePercent` finite
through the guarded division. -/
theorem toNumber_total_spec_witness :
    wRow ∈ mapRawBidsToRows wRawBids binanceExchange
    ∧ (∃ item ∈ wRawBids,
        wRow.price = toNumber item.1
        ∧ wRow.size = toNumber item.2
        ∧ wRow.notional = toNumber item.1 * toNumber item.2)
    ∧ wCryptoRow ∈ refreshMarketsRows [wTicker] [wStockLine]
    ∧ wStockRow ∈ refreshMarketsRows [wTicker] [wStockLine]
    ∧ (∃ q : ℚ, wCryptoRow.changePercent = JSNum.fin q)
    ∧ (∃ q : ℚ, wStockRow.changePercent = JSNum.fin q)
    ∧ 0 < wStockRow.price := by
  have hmem : wRow ∈ mapRawBidsToRows wRawBids binanceExchange := by
    norm_num [mapRawBidsToRows, sortByNotionalDesc, toNumber, binanceExchange,
      wRow, wRawBids, MIN_TOP_BUYER_BTC, TOP_BUYERS_LIMIT, List.insertionSort,
      List.orderedInsert, List.filter]
  have hcry : cryptoRowsOf [wTicker] = [wCryptoRow] := by decide
  have hdiv : jsMul (jsDiv ((110 : ℚ) - 100) 100) 100 = JSNum.fin 10 := by
    norm_num [jsDiv, jsMul]
  have hstk : stockRowOfLine wStockLine = some wStockRow := by
    rw [stockRowOfLine]
    rw [if_neg (by decide : ¬ wStockLine.cols.length < 8)]
    rw [if_neg (by decide :
      ¬ (toUpperString (jsOrString (wStockLine.cols.getD 0 ("", none)).1 "") = ""
        ∨ toNumber (wStockLine.cols.getD 3 ("", none)).2 ≤ 0
        ∨ toNumber (wStockLine.cols.getD 6 ("", none)).2 ≤ 0))]
    have h3 : toNumber (wStockLine.cols.getD 3 ("", none)).2 = 100 := by decide
    have h6 : toNumber (wStockLine.cols.getD 6 ("", none)).2 = 110 := by decide
    have hsym : stringReplaceFirst
        (toUpperString (jsOrString (wStockLine.cols.getD 0 ("", none)).1 ""))
        ".US" "" = "AAPL" := by decide
    rw [h3, h6, hsym, hdiv]
    norm_num [wStockRow]
  have hall : refreshMarketsRows [wTicker] [wStockLine] =
      [wCryptoRow, wStockRow] := by
    rw [refreshMarketsRows, hcry]
    rw [show List.filterMap stockRowOfLine [wStockLine] = [wStockRow] by
      simp [List.filterMap, hstk]]
    decide
  have hm1 : wCryptoRow ∈ refreshMarketsRows [wTicker] [wStockLine] := by
    rw [hall]; decide
  have hm2 : wStockRow ∈ refreshMarketsRows [wTicker] [wStockLine] := by
    rw [hall]; decide
  refine ⟨hmem, toNumber_total_spec.2.2.2.2.2.1 _ binanceExchange _ hmem,
    hm1, hm2,
    (toNumber_total_spec.2.2.2.2.2.2 [wTicker] [wStockLine] wCryptoRow hm1).1,
    (toNumber_total_spec.2.2.2.2.2.2 [wTicker] [wStockLine] wStockRow hm2).1,
    (toNumber_total_spec.2.2.2.2.2.2 [wTicker] [wStockLine] wStockRow hm2).2.1⟩

end BTCPrice
